import Mathlib

/-!
Verification of the Acid-Generator-Mini pattern generator and sequencer
(src/Generator.hpp, src/AcidSeq.cpp) against its specification.

The C++ code computes with IEEE-754 binary32 (`float`) arithmetic.  We model
every float value by its exact rational value (`ℚ`) and every float operation
by the exact rational operation followed by `fround`, the IEEE round-to-
nearest-even rounding to 24 significand bits (with subnormal quantization
below 2^(-126); overflow to infinity is not modelled since every quantity in
this program stays far below 2^128).  Integer arithmetic of the source is
modelled with `Nat`/`Int` with explicit `% 2^32` where 32-bit wraparound
matters.
-/

set_option maxRecDepth 40000
set_option maxHeartbeats 1000000

namespace AcidGenerator

/-- One step of a binary search for the position of the leading bit:
if `2^(acc+w) ≤ n` the exponent is raised by `w`, otherwise kept. -/
def bsrStep (n : Nat) (w : Nat) (acc : Nat) : Nat :=
  if 2^(acc+w) ≤ n then acc+w else acc

/-- Floor of the base-2 logarithm of `n` (for `1 ≤ n < 2^1024`), computed by a
ten-stage binary search so that it reduces without well-founded recursion. -/
def bitlen (n : Nat) : Nat :=
  bsrStep n 1 (bsrStep n 2 (bsrStep n 4 (bsrStep n 8 (bsrStep n 16 (bsrStep n 32
    (bsrStep n 64 (bsrStep n 128 (bsrStep n 256 (bsrStep n 512 0)))))))))

/-- Round a rational to the nearest integer, ties to even. -/
def rne (x : ℚ) : ℤ :=
  if x - ⌊x⌋ < 1/2 then ⌊x⌋
  else if 1/2 < x - ⌊x⌋ then ⌊x⌋ + 1
  else if ⌊x⌋ % 2 = 0 then ⌊x⌋ else ⌊x⌋ + 1

/-- Floor of the base-2 logarithm of a positive rational, exact on
`[2^(-200), 2^824)` and returning the clamp value `-200` below that range
(the clamp is harmless: `fround` only uses `flog2` through
`max (flog2 x) (-126)`, and values below `2^(-200)` are deep subnormal). -/
def flog2 (x : ℚ) : ℤ := (bitlen ⌊x * ((2^200 : ℕ) : ℚ)⌋.toNat : ℤ) - 200

/-- Exponent of the rounding quantum of binary32 at magnitude `x`:
`max (flog2 x) (-126) - 23` (normal numbers keep 24 significand bits,
subnormals are quantized at `2^(-149)`). -/
def fquant (x : ℚ) : ℤ := max (flog2 x) (-126) - 23

/-- Round a positive rational to the binary32 grid, to nearest, ties to even.
The two branches only serve to keep all exponentiation over `ℕ`. -/
def froundPos (x : ℚ) : ℚ :=
  if 0 ≤ fquant x then
    (rne (x / ((2^(fquant x).toNat : ℕ) : ℚ)) : ℚ) * ((2^(fquant x).toNat : ℕ) : ℚ)
  else
    (rne (x * ((2^(-(fquant x)).toNat : ℕ) : ℚ)) : ℚ) / ((2^(-(fquant x)).toNat : ℕ) : ℚ)

/-- IEEE-754 binary32 rounding (to nearest, ties to even) of an exact rational:
the value a C++ `float` holds after an arithmetic operation whose exact result
is `x`.  Overflow is not modelled (all values in this development are far
below `2^128`). -/
def fround (x : ℚ) : ℚ :=
  if 0 < x then froundPos x else if x < 0 then -froundPos (-x) else 0

/-! Basic facts about `bitlen`. -/

theorem bsrStep_spec {n : Nat} (w acc : Nat) (h1 : 2^acc ≤ n) (h2 : n < 2^(acc+w+w)) :
    2^(bsrStep n w acc) ≤ n ∧ n < 2^(bsrStep n w acc + w) := by
  unfold bsrStep
  split
  · exact ⟨‹2^(acc+w) ≤ n›, by simpa [Nat.add_assoc] using h2⟩
  · exact ⟨h1, by omega⟩

theorem bitlen_spec {n : Nat} (h1 : 1 ≤ n) (h2 : n < 2^1024) :
    2^(bitlen n) ≤ n ∧ n < 2^(bitlen n + 1) := by
  have h0 : 2^0 ≤ n := h1
  have s512 := bsrStep_spec 512 0 h0 (by simpa using h2)
  have s256 := bsrStep_spec 256 _ s512.1 s512.2
  have s128 := bsrStep_spec 128 _ s256.1 s256.2
  have s64 := bsrStep_spec 64 _ s128.1 s128.2
  have s32 := bsrStep_spec 32 _ s64.1 s64.2
  have s16 := bsrStep_spec 16 _ s32.1 s32.2
  have s8 := bsrStep_spec 8 _ s16.1 s16.2
  have s4 := bsrStep_spec 4 _ s8.1 s8.2
  have s2 := bsrStep_spec 2 _ s4.1 s4.2
  have s1 := bsrStep_spec 1 _ s2.1 s2.2
  exact s1

theorem bitlen_zero : bitlen 0 = 0 := by
  have h : ∀ w acc, bsrStep 0 w acc = acc := by
    intro w acc
    unfold bsrStep
    simp [Nat.pos_pow_of_pos]
  simp [bitlen, h]

theorem bitlen_mono {m n : Nat} (hmn : m ≤ n) (hn : n < 2^1024) :
    bitlen m ≤ bitlen n := by
  rcases Nat.eq_zero_or_pos m with hm | hm
  · simp [hm, bitlen_zero]
  · have hm' := bitlen_spec hm (lt_of_le_of_lt hmn hn)
    have hn' := bitlen_spec (le_trans hm hmn) hn
    have : 2^(bitlen m) < 2^(bitlen n + 1) :=
      lt_of_le_of_lt (le_trans hm'.1 hmn) hn'.2
    have := Nat.pow_lt_pow_iff_right (a := 2) (by norm_num) |>.mp this
    omega

attribute [irreducible] bsrStep bitlen

/-! Basic facts about `rne`. -/

theorem rne_cases (x : ℚ) : rne x = ⌊x⌋ ∨ rne x = ⌊x⌋ + 1 := by
  unfold rne
  split
  · exact Or.inl rfl
  · split
    · exact Or.inr rfl
    · split
      · exact Or.inl rfl
      · exact Or.inr rfl

theorem floor_le_rne (x : ℚ) : ⌊x⌋ ≤ rne x := by
  rcases rne_cases x with h | h <;> omega

theorem rne_le_floor_succ (x : ℚ) : rne x ≤ ⌊x⌋ + 1 := by
  rcases rne_cases x with h | h <;> omega

theorem rne_eq_floor (x : ℚ) (h : x - ⌊x⌋ < 1/2) : rne x = ⌊x⌋ := by
  unfold rne
  rw [if_pos h]

theorem rne_eq_floor_succ (x : ℚ) (h : 1/2 < x - ⌊x⌋) : rne x = ⌊x⌋ + 1 := by
  unfold rne
  rw [if_neg (by linarith), if_pos h]

theorem rne_sub_le (x : ℚ) : x - 1/2 ≤ (rne x : ℚ) := by
  have hub : x < ⌊x⌋ + 1 := Int.lt_floor_add_one x
  rcases lt_trichotomy (x - ⌊x⌋) (1/2) with h | h | h
  · rw [rne_eq_floor x h]
    linarith
  · have := floor_le_rne x
    have h2 : ((⌊x⌋ : ℤ) : ℚ) ≤ (rne x : ℚ) := by exact_mod_cast this
    linarith
  · rw [rne_eq_floor_succ x h]
    push_cast
    linarith

theorem rne_le_add (x : ℚ) : (rne x : ℚ) ≤ x + 1/2 := by
  have hlb : (⌊x⌋ : ℚ) ≤ x := Int.floor_le x
  rcases lt_trichotomy (x - ⌊x⌋) (1/2) with h | h | h
  · rw [rne_eq_floor x h]
    linarith
  · have := rne_le_floor_succ x
    have h2 : (rne x : ℚ) ≤ ((⌊x⌋ : ℤ) : ℚ) + 1 := by exact_mod_cast this
    linarith
  · rw [rne_eq_floor_succ x h]
    push_cast
    linarith

theorem rne_mono {x y : ℚ} (hxy : x ≤ y) : rne x ≤ rne y := by
  rcases lt_or_eq_of_le (Int.floor_le_floor hxy) with hf | hf
  · calc rne x ≤ ⌊x⌋ + 1 := rne_le_floor_succ x
    _ ≤ ⌊y⌋ := by omega
    _ ≤ rne y := floor_le_rne y
  · have hx : x - ⌊x⌋ ≤ y - ⌊y⌋ := by
      have hq : ((⌊x⌋ : ℤ) : ℚ) = ((⌊y⌋ : ℤ) : ℚ) := by rw [hf]
      linarith
    rcases lt_or_le (x - ⌊x⌋) (1/2) with h1 | h1
    · rw [rne_eq_floor x h1, hf]
      exact floor_le_rne y
    · have h2 : 1/2 ≤ y - ⌊y⌋ := le_trans h1 hx
      rcases lt_or_eq_of_le h2 with h3 | h3
      · rw [rne_eq_floor_succ y h3]
        calc rne x ≤ ⌊x⌋ + 1 := rne_le_floor_succ x
        _ = ⌊y⌋ + 1 := by omega
      · have h4 : x - ⌊x⌋ = 1/2 := le_antisymm (by linarith [hx, h3.symm]) h1
        have h5 : y - ⌊y⌋ = 1/2 := h3.symm
        have hx5 : x = ⌊x⌋ + 1/2 := by linarith
        have hy5 : y = ⌊y⌋ + 1/2 := by linarith
        have : x = y := by rw [hx5, hy5, hf]
        rw [this]

theorem intCast_le_rne {m : ℤ} {x : ℚ} (h : (m : ℚ) ≤ x) : m ≤ rne x := by
  have : m ≤ ⌊x⌋ := Int.le_floor.mpr h
  exact le_trans this (floor_le_rne x)

theorem rne_le_intCast {m : ℤ} {x : ℚ} (h : x ≤ (m : ℚ)) : rne x ≤ m := by
  have h1 : (rne x : ℚ) ≤ m + 1/2 := le_trans (rne_le_add x) (by linarith)
  by_contra h2
  push_neg at h2
  have : (m : ℚ) + 1 ≤ (rne x : ℚ) := by exact_mod_cast h2
  linarith

theorem rne_nonneg {x : ℚ} (h : 0 ≤ x) : 0 ≤ rne x :=
  intCast_le_rne (by exact_mod_cast h)

/-! Facts about `flog2`. -/

theorem twoPow_cast (k : ℕ) : ((2^k : ℕ) : ℚ) = (2:ℚ)^(k : ℤ) := by
  push_cast
  rw [zpow_natCast]

theorem flog2_spec {x : ℚ} (h1 : (2:ℚ)^(-200 : ℤ) ≤ x) (h2 : x < (2:ℚ)^(824 : ℤ)) :
    (2:ℚ)^(flog2 x) ≤ x ∧ x < (2:ℚ)^(flog2 x + 1) := by
  have hs : ((2^200 : ℕ) : ℚ) = (2:ℚ)^(200 : ℤ) := twoPow_cast 200
  have hspos : (0:ℚ) < (2:ℚ)^(200 : ℤ) := zpow_pos (by norm_num) _
  have hprod1 : (1:ℚ) ≤ x * ((2^200 : ℕ) : ℚ) := by
    rw [hs]
    calc (1:ℚ) = (2:ℚ)^(-200 : ℤ) * (2:ℚ)^(200 : ℤ) := by
          rw [← zpow_add₀ (by norm_num : (2:ℚ) ≠ 0)]
          norm_num
    _ ≤ x * (2:ℚ)^(200 : ℤ) := by
          exact mul_le_mul_of_nonneg_right h1 (le_of_lt hspos)
  have hfl1 : 1 ≤ ⌊x * ((2^200 : ℕ) : ℚ)⌋ := Int.le_floor.mpr (by exact_mod_cast hprod1)
  have hprodlt : x * ((2^200 : ℕ) : ℚ) < (2:ℚ)^(1024 : ℤ) := by
    rw [hs]
    calc x * (2:ℚ)^(200 : ℤ) < (2:ℚ)^(824 : ℤ) * (2:ℚ)^(200 : ℤ) :=
          mul_lt_mul_of_pos_right h2 hspos
    _ = (2:ℚ)^(1024 : ℤ) := by
          rw [← zpow_add₀ (by norm_num : (2:ℚ) ≠ 0)]
          norm_num
  set n : ℕ := ⌊x * ((2^200 : ℕ) : ℚ)⌋.toNat with hn
  have hncast : ((n : ℤ) : ℚ) = (⌊x * ((2^200 : ℕ) : ℚ)⌋ : ℚ) := by
    rw [hn, Int.toNat_of_nonneg (by omega)]
  have hn1 : 1 ≤ n := by omega
  have hnlt : n < 2^1024 := by
    have hfl : (⌊x * ((2^200 : ℕ) : ℚ)⌋ : ℚ) ≤ x * ((2^200 : ℕ) : ℚ) := Int.floor_le _
    have : ((n : ℤ) : ℚ) < (2:ℚ)^(1024 : ℤ) := by rw [hncast]; exact lt_of_le_of_lt hfl hprodlt
    have h1024 : (2:ℚ)^(1024 : ℤ) = ((2^1024 : ℕ) : ℚ) := (twoPow_cast 1024).symm
    rw [h1024] at this
    exact_mod_cast this
  obtain ⟨hb1, hb2⟩ := bitlen_spec hn1 hnlt
  have hlow : (2:ℚ)^((bitlen n : ℤ)) ≤ x * (2:ℚ)^(200 : ℤ) := by
    have : ((2^(bitlen n) : ℕ) : ℚ) ≤ ((n : ℤ) : ℚ) := by exact_mod_cast hb1
    rw [twoPow_cast, hncast] at this
    exact le_trans this (by rw [← hs]; exact Int.floor_le _)
  have hhigh : x * (2:ℚ)^(200 : ℤ) < (2:ℚ)^((bitlen n : ℤ) + 1) := by
    have hlt : x * ((2^200 : ℕ) : ℚ) < ((n : ℤ) : ℚ) + 1 := by
      rw [hncast]
      exact Int.lt_floor_add_one _
    have hle : ((n : ℤ) : ℚ) + 1 ≤ ((2^(bitlen n + 1) : ℕ) : ℚ) := by exact_mod_cast hb2
    rw [twoPow_cast] at hle
    push_cast at hle
    rw [hs] at hlt
    exact lt_of_lt_of_le hlt hle
  have hflog : flog2 x = (bitlen n : ℤ) - 200 := by rw [flog2]
  constructor
  · rw [hflog]
    rw [zpow_sub₀ (by norm_num : (2:ℚ) ≠ 0)]
    rw [div_le_iff₀ hspos]
    exact hlow
  · rw [hflog]
    have : (bitlen n : ℤ) - 200 + 1 = ((bitlen n : ℤ) + 1) - 200 := by ring
    rw [this, zpow_sub₀ (by norm_num : (2:ℚ) ≠ 0)]
    rw [lt_div_iff₀ hspos]
    exact hhigh

theorem flog2_tiny {x : ℚ} (h0 : 0 ≤ x) (h : x < (2:ℚ)^(-200 : ℤ)) : flog2 x = -200 := by
  have hs : ((2^200 : ℕ) : ℚ) = (2:ℚ)^(200 : ℤ) := twoPow_cast 200
  have hspos : (0:ℚ) < (2:ℚ)^(200 : ℤ) := zpow_pos (by norm_num) _
  have hlt : x * ((2^200 : ℕ) : ℚ) < 1 := by
    rw [hs]
    calc x * (2:ℚ)^(200 : ℤ) < (2:ℚ)^(-200 : ℤ) * (2:ℚ)^(200 : ℤ) :=
          mul_lt_mul_of_pos_right h hspos
    _ = 1 := by
          rw [← zpow_add₀ (by norm_num : (2:ℚ) ≠ 0)]
          norm_num
  have hge : 0 ≤ x * ((2^200 : ℕ) : ℚ) := mul_nonneg h0 (by positivity)
  have hfl : ⌊x * ((2^200 : ℕ) : ℚ)⌋ = 0 := by
    exact Int.floor_eq_zero_iff.mpr ⟨hge, hlt⟩
  rw [flog2, hfl]
  simp [bitlen_zero]

theorem flog2_mono {x y : ℚ} (h0 : 0 ≤ x) (hxy : x ≤ y) (hy : y < (2:ℚ)^(824 : ℤ)) :
    flog2 x ≤ flog2 y := by
  have hmul : x * ((2^200 : ℕ) : ℚ) ≤ y * ((2^200 : ℕ) : ℚ) :=
    mul_le_mul_of_nonneg_right hxy (by positivity)
  have hfloor : ⌊x * ((2^200 : ℕ) : ℚ)⌋ ≤ ⌊y * ((2^200 : ℕ) : ℚ)⌋ :=
    Int.floor_le_floor hmul
  have htoNat : ⌊x * ((2^200 : ℕ) : ℚ)⌋.toNat ≤ ⌊y * ((2^200 : ℕ) : ℚ)⌋.toNat := by
    omega
  have hybound : ⌊y * ((2^200 : ℕ) : ℚ)⌋.toNat < 2^1024 := by
    have hs : ((2^200 : ℕ) : ℚ) = (2:ℚ)^(200 : ℤ) := twoPow_cast 200
    have hspos : (0:ℚ) < (2:ℚ)^(200 : ℤ) := zpow_pos (by norm_num) _
    have hprodlt : y * ((2^200 : ℕ) : ℚ) < (2:ℚ)^(1024 : ℤ) := by
      rw [hs]
      calc y * (2:ℚ)^(200 : ℤ) < (2:ℚ)^(824 : ℤ) * (2:ℚ)^(200 : ℤ) :=
            mul_lt_mul_of_pos_right hy hspos
      _ = (2:ℚ)^(1024 : ℤ) := by
            rw [← zpow_add₀ (by norm_num : (2:ℚ) ≠ 0)]
            norm_num
    rcases le_or_lt (⌊y * ((2^200 : ℕ) : ℚ)⌋) 0 with hneg | hpos
    · have hz : ⌊y * ((2^200 : ℕ) : ℚ)⌋.toNat = 0 := by omega
      rw [hz]
      exact Nat.pos_pow_of_pos 1024 (by norm_num)
    · have hfl : (⌊y * ((2^200 : ℕ) : ℚ)⌋ : ℚ) ≤ y * ((2^200 : ℕ) : ℚ) := Int.floor_le _
      have hcast : ((⌊y * ((2^200 : ℕ) : ℚ)⌋.toNat : ℤ) : ℚ) < (2:ℚ)^(1024 : ℤ) := by
        rw [Int.toNat_of_nonneg (by omega)]
        exact lt_of_le_of_lt hfl hprodlt
      have h1024 : (2:ℚ)^(1024 : ℤ) = ((2^1024 : ℕ) : ℚ) := (twoPow_cast 1024).symm
      rw [h1024] at hcast
      exact_mod_cast hcast
  have := bitlen_mono htoNat hybound
  rw [flog2, flog2]
  omega

/-! Facts about `froundPos` and `fround`. -/

theorem froundPos_eq (x : ℚ) :
    froundPos x = (rne (x / (2:ℚ)^(fquant x)) : ℚ) * (2:ℚ)^(fquant x) := by
  unfold froundPos
  split
  · rw [twoPow_cast]
    rw [Int.toNat_of_nonneg ‹0 ≤ fquant x›]
  · rw [twoPow_cast]
    rw [Int.toNat_of_nonneg (by omega : 0 ≤ -(fquant x))]
    rw [zpow_neg, div_inv_eq_mul, ← div_eq_mul_inv]

theorem neg126_le_fquant (x : ℚ) : -149 ≤ fquant x := by
  unfold fquant
  have := le_max_right (flog2 x) (-126)
  omega

theorem froundPos_nonneg {x : ℚ} (h : 0 ≤ x) : 0 ≤ froundPos x := by
  rw [froundPos_eq]
  have hq : (0:ℚ) < (2:ℚ)^(fquant x) := zpow_pos (by norm_num) _
  have h1 : 0 ≤ x / (2:ℚ)^(fquant x) := div_nonneg h (le_of_lt hq)
  have h2 : 0 ≤ rne (x / (2:ℚ)^(fquant x)) := rne_nonneg h1
  have h3 : (0:ℚ) ≤ (rne (x / (2:ℚ)^(fquant x)) : ℚ) := by exact_mod_cast h2
  exact mul_nonneg h3 (le_of_lt hq)

theorem froundPos_le_pow {x : ℚ} (h : x < (2:ℚ)^(max (flog2 x) (-126) + 1)) :
    froundPos x ≤ (2:ℚ)^(max (flog2 x) (-126) + 1) := by
  rw [froundPos_eq]
  have hq : (0:ℚ) < (2:ℚ)^(fquant x) := zpow_pos (by norm_num) _
  have hub : x / (2:ℚ)^(fquant x) ≤ ((2^24 : ℤ) : ℚ) := by
    rw [div_le_iff₀ hq]
    have he : ((2^24 : ℤ) : ℚ) * (2:ℚ)^(fquant x) = (2:ℚ)^(max (flog2 x) (-126) + 1) := by
      have h24 : ((2^24 : ℤ) : ℚ) = (2:ℚ)^(24 : ℤ) := by norm_num
      rw [h24, ← zpow_add₀ (by norm_num : (2:ℚ) ≠ 0)]
      congr 1
      unfold fquant
      ring
    rw [he]
    exact le_of_lt h
  have hr : rne (x / (2:ℚ)^(fquant x)) ≤ 2^24 := rne_le_intCast hub
  have hr' : (rne (x / (2:ℚ)^(fquant x)) : ℚ) ≤ (2:ℚ)^(24 : ℤ) := by
    have h2 : ((2^24 : ℤ) : ℚ) = (2:ℚ)^(24 : ℤ) := by norm_num
    rw [← h2]
    exact_mod_cast hr
  calc (rne (x / (2:ℚ)^(fquant x)) : ℚ) * (2:ℚ)^(fquant x)
      ≤ (2:ℚ)^(24 : ℤ) * (2:ℚ)^(fquant x) := mul_le_mul_of_nonneg_right hr' (le_of_lt hq)
  _ = (2:ℚ)^(max (flog2 x) (-126) + 1) := by
      rw [← zpow_add₀ (by norm_num : (2:ℚ) ≠ 0)]
      congr 1
      unfold fquant
      ring

theorem pow_le_froundPos {x : ℚ} (h : (2:ℚ)^(max (flog2 x) (-126)) ≤ x) :
    (2:ℚ)^(max (flog2 x) (-126)) ≤ froundPos x := by
  rw [froundPos_eq]
  have hq : (0:ℚ) < (2:ℚ)^(fquant x) := zpow_pos (by norm_num) _
  have hlb : ((2^23 : ℤ) : ℚ) ≤ x / (2:ℚ)^(fquant x) := by
    rw [le_div_iff₀ hq]
    have he : ((2^23 : ℤ) : ℚ) * (2:ℚ)^(fquant x) = (2:ℚ)^(max (flog2 x) (-126)) := by
      have h23 : ((2^23 : ℤ) : ℚ) = (2:ℚ)^(23 : ℤ) := by norm_num
      rw [h23, ← zpow_add₀ (by norm_num : (2:ℚ) ≠ 0)]
      congr 1
      unfold fquant
      ring
    rw [he]
    exact h
  have hr : (2:ℤ)^23 ≤ rne (x / (2:ℚ)^(fquant x)) := intCast_le_rne (by exact_mod_cast hlb)
  have hr' : (2:ℚ)^(23 : ℤ) ≤ (rne (x / (2:ℚ)^(fquant x)) : ℚ) := by
    have h2 : ((2^23 : ℤ) : ℚ) = (2:ℚ)^(23 : ℤ) := by norm_num
    rw [← h2]
    exact_mod_cast hr
  calc (2:ℚ)^(max (flog2 x) (-126))
      = (2:ℚ)^(23 : ℤ) * (2:ℚ)^(fquant x) := by
        rw [← zpow_add₀ (by norm_num : (2:ℚ) ≠ 0)]
        congr 1
        unfold fquant
        ring
  _ ≤ (rne (x / (2:ℚ)^(fquant x)) : ℚ) * (2:ℚ)^(fquant x) :=
        mul_le_mul_of_nonneg_right hr' (le_of_lt hq)

theorem lt_pow_max_succ {x : ℚ} (h0 : 0 ≤ x) (hup : x < (2:ℚ)^(824 : ℤ)) :
    x < (2:ℚ)^(max (flog2 x) (-126) + 1) := by
  rcases lt_or_le x ((2:ℚ)^(-200 : ℤ)) with hsm | hlg
  · calc x < (2:ℚ)^(-200 : ℤ) := hsm
    _ ≤ (2:ℚ)^(max (flog2 x) (-126) + 1) := by
        apply zpow_le_zpow_right₀ (by norm_num : (1:ℚ) ≤ 2)
        have := le_max_right (flog2 x) (-126)
        omega
  · have := (flog2_spec hlg hup).2
    calc x < (2:ℚ)^(flog2 x + 1) := this
    _ ≤ (2:ℚ)^(max (flog2 x) (-126) + 1) := by
        apply zpow_le_zpow_right₀ (by norm_num : (1:ℚ) ≤ 2)
        have := le_max_left (flog2 x) (-126)
        omega

theorem froundPos_mono {x y : ℚ} (h0 : 0 < x) (hxy : x ≤ y) (hy : y < (2:ℚ)^(824 : ℤ)) :
    froundPos x ≤ froundPos y := by
  have hx824 : x < (2:ℚ)^(824 : ℤ) := lt_of_le_of_lt hxy hy
  have hEle : max (flog2 x) (-126) ≤ max (flog2 y) (-126) := by
    have := flog2_mono (le_of_lt h0) hxy hy
    omega
  rcases lt_or_eq_of_le hEle with hElt | hEeq
  · have h1 : froundPos x ≤ (2:ℚ)^(max (flog2 x) (-126) + 1) :=
      froundPos_le_pow (lt_pow_max_succ (le_of_lt h0) hx824)
    have h2 : (2:ℚ)^(max (flog2 x) (-126) + 1) ≤ (2:ℚ)^(max (flog2 y) (-126)) :=
      zpow_le_zpow_right₀ (by norm_num : (1:ℚ) ≤ 2) (by omega)
    have h3 : (2:ℚ)^(max (flog2 y) (-126)) ≤ froundPos y := by
      apply pow_le_froundPos
      have hflgy : max (flog2 y) (-126) = flog2 y := by
        by_contra hne
        have hmax : max (flog2 y) (-126) = -126 := by
          rcases max_choice (flog2 y) (-126) with hc | hc
          · exact absurd hc hne
          · exact hc
        have h4 := le_max_right (flog2 x) (-126)
        omega
      have hge : (2:ℚ)^(-200 : ℤ) ≤ y := by
        by_contra hlt
        push_neg at hlt
        have h0y : 0 ≤ y := le_trans (le_of_lt h0) hxy
        have h5 := flog2_tiny h0y hlt
        have h6 := le_max_right (flog2 x) (-126)
        have h7 : max (flog2 y) (-126) = -126 := by rw [h5]; norm_num
        omega
      rw [hflgy]
      exact (flog2_spec hge hy).1
    linarith
  · rw [froundPos_eq, froundPos_eq]
    have hqeq : fquant x = fquant y := by unfold fquant; omega
    rw [hqeq]
    have hq : (0:ℚ) < (2:ℚ)^(fquant y) := zpow_pos (by norm_num) _
    have hdiv : x / (2:ℚ)^(fquant y) ≤ y / (2:ℚ)^(fquant y) :=
      (div_le_div_right hq).mpr hxy
    have hrr := rne_mono hdiv
    have hc : (rne (x / (2:ℚ)^(fquant y)) : ℚ) ≤ (rne (y / (2:ℚ)^(fquant y)) : ℚ) := by
      exact_mod_cast hrr
    exact mul_le_mul_of_nonneg_right hc (le_of_lt hq)

theorem fround_nonneg {x : ℚ} (h : 0 ≤ x) : 0 ≤ fround x := by
  unfold fround
  split
  · exact froundPos_nonneg h
  · split
    · linarith
    · exact le_refl 0

theorem fround_nonpos {x : ℚ} (h : x ≤ 0) : fround x ≤ 0 := by
  unfold fround
  split
  · linarith
  · split
    · have := froundPos_nonneg (x := -x) (by linarith)
      linarith
    · exact le_refl 0

theorem fround_zero : fround 0 = 0 := by
  unfold fround
  norm_num

theorem fround_neg (x : ℚ) : fround (-x) = -fround x := by
  unfold fround
  rcases lt_trichotomy x 0 with h | h | h
  · rw [if_pos (by linarith : (0:ℚ) < -x), if_neg (by linarith), if_pos h]
    rw [neg_neg]
  · rw [h]
    norm_num
  · rw [if_neg (by linarith : ¬ (0:ℚ) < -x), if_pos h, if_pos (by linarith : -x < 0)]
    rw [neg_neg]

theorem fround_mono {x y : ℚ} (hx : -(2:ℚ)^(824 : ℤ) < x) (hxy : x ≤ y)
    (hy : y < (2:ℚ)^(824 : ℤ)) : fround x ≤ fround y := by
  rcases lt_trichotomy x 0 with hxs | hxs | hxs
  · rcases lt_trichotomy y 0 with hys | hys | hys
    · have h1 : fround x = -froundPos (-x) := by
        unfold fround
        rw [if_neg (by linarith), if_pos hxs]
      have h2 : fround y = -froundPos (-y) := by
        unfold fround
        rw [if_neg (by linarith), if_pos hys]
      rw [h1, h2]
      have := froundPos_mono (x := -y) (y := -x) (by linarith) (by linarith) (by linarith)
      linarith
    · rw [hys, fround_zero]
      exact fround_nonpos (le_of_lt hxs)
    · exact le_trans (fround_nonpos (le_of_lt hxs)) (fround_nonneg (le_of_lt hys))
  · rw [hxs, fround_zero]
    exact fround_nonneg (hxs ▸ hxy)
  · have hys : 0 < y := lt_of_lt_of_le hxs hxy
    have h1 : fround x = froundPos x := by unfold fround; rw [if_pos hxs]
    have h2 : fround y = froundPos y := by unfold fround; rw [if_pos hys]
    rw [h1, h2]
    exact froundPos_mono hxs hxy hy

theorem pow_le_fround {x : ℚ} (h : (2:ℚ)^(-149 : ℤ) ≤ x) (hup : x < (2:ℚ)^(824 : ℤ)) :
    (2:ℚ)^(-149 : ℤ) ≤ fround x := by
  have hx : 0 < x := lt_of_lt_of_le (zpow_pos (by norm_num) _) h
  have hfx : fround x = froundPos x := by unfold fround; rw [if_pos hx]
  have hqx : x / (2:ℚ)^(fquant x) = x * (2:ℚ)^(-(fquant x)) := by
    rw [zpow_neg, div_eq_mul_inv]
  have hq : (0:ℚ) < (2:ℚ)^(fquant x) := zpow_pos (by norm_num) _
  have hxq : (2:ℚ)^(fquant x) ≤ x := by
    rcases le_or_lt (flog2 x) (-126) with hc | hc
    · have hE : max (flog2 x) (-126) = -126 := max_eq_right hc
      have hqv : fquant x = -149 := by unfold fquant; omega
      rw [hqv]
      exact h
    · have hE : max (flog2 x) (-126) = flog2 x := max_eq_left (by omega)
      have hge200 : (2:ℚ)^(-200 : ℤ) ≤ x :=
        le_trans (zpow_le_zpow_right₀ (by norm_num : (1:ℚ) ≤ 2) (by norm_num)) h
      have hspec := (flog2_spec hge200 hup).1
      calc (2:ℚ)^(fquant x) ≤ (2:ℚ)^(flog2 x) := by
            apply zpow_le_zpow_right₀ (by norm_num : (1:ℚ) ≤ 2)
            unfold fquant
            omega
      _ ≤ x := hspec
  have hone : (1:ℚ) ≤ x / (2:ℚ)^(fquant x) := by
    rw [le_div_iff₀ hq, one_mul]
    exact hxq
  have hrne : 1 ≤ rne (x / (2:ℚ)^(fquant x)) := intCast_le_rne (by exact_mod_cast hone)
  have hrne' : (1:ℚ) ≤ (rne (x / (2:ℚ)^(fquant x)) : ℚ) := by exact_mod_cast hrne
  rw [hfx, froundPos_eq]
  calc (2:ℚ)^(-149 : ℤ) ≤ (2:ℚ)^(fquant x) :=
        zpow_le_zpow_right₀ (by norm_num : (1:ℚ) ≤ 2) (neg126_le_fquant x)
  _ = 1 * (2:ℚ)^(fquant x) := (one_mul _).symm
  _ ≤ (rne (x / (2:ℚ)^(fquant x)) : ℚ) * (2:ℚ)^(fquant x) :=
        mul_le_mul_of_nonneg_right hrne' (le_of_lt hq)

/-- Round a rational to the nearest integer, ties away from zero: the behavior
of C `std::round` on the exact value held by its float argument. -/
def rha (x : ℚ) : ℤ := if 0 ≤ x then ⌊x + 1/2⌋ else -⌊-x + 1/2⌋

theorem rha_mono {x y : ℚ} (hxy : x ≤ y) : rha x ≤ rha y := by
  unfold rha
  rcases le_or_lt 0 x with hx | hx <;> rcases le_or_lt 0 y with hy | hy
  · rw [if_pos hx, if_pos hy]
    exact Int.floor_le_floor (by linarith)
  · linarith
  · rw [if_neg (by linarith), if_pos hy]
    have h1 : ⌊-x + 1/2⌋ ≥ 0 := by
      apply Int.le_floor.mpr
      push_cast
      linarith
    have h2 : (0:ℤ) ≤ ⌊y + 1/2⌋ := by
      apply Int.le_floor.mpr
      push_cast
      linarith
    omega
  · rw [if_neg (by linarith), if_neg (by linarith)]
    have := Int.floor_le_floor (a := -y + 1/2) (b := -x + 1/2) (by linarith)
    omega

theorem rha_nonpos {x : ℚ} (h : x ≤ 0) : rha x ≤ 0 := by
  unfold rha
  rcases le_or_lt 0 x with hx | hx
  · rw [if_pos hx]
    have hx0 : x = 0 := le_antisymm h hx
    rw [hx0]
    norm_num
  · rw [if_neg (by linarith)]
    have : (0:ℤ) ≤ ⌊-x + 1/2⌋ := by
      apply Int.le_floor.mpr
      push_cast
      linarith
    omega

/-!
The PRNG of the program (`struct SFC32` of src/Generator.hpp), ported from
JavaScript.  The four state words are 32-bit unsigned integers, modelled by
naturals below `2^32` with explicit wraparound.  `next` returns
`(float)t / 4294967296.0f` where `t` is the 32-bit temporary: the cast of `t`
to `float` rounds to 24 bits (`fround`), and the division by the exactly
representable `4294967296.0f` is one more correctly rounded float operation.
-/

def U32 : ℕ := 4294967296

structure SFC32 where
  a : ℕ
  b : ℕ
  c : ℕ
  d : ℕ
deriving DecidableEq

/-- Constructor `SFC32(uint32_t seed)`: all four words are set to the seed
(a wider argument is truncated by the `uint32_t` parameter conversion). -/
def SFC32.init (seed : ℕ) : SFC32 :=
  ⟨seed % U32, seed % U32, seed % U32, seed % U32⟩

/-- The state update of `SFC32::next()`, returning the 32-bit temporary `t`
together with the new state.  Mirrors the source line by line:
`t = a + b; a = b ^ (b >>> 9); b = c + (c << 3); c = rotl(c, 21); d = d + 1;
t = t + d; c = c + t`. -/
def SFC32.stepT (s : SFC32) : ℕ × SFC32 :=
  let t0 := (s.a + s.b) % U32
  let a2 := (s.b ^^^ (s.b >>> 9)) % U32
  let b2 := (s.c + ((s.c <<< 3) % U32)) % U32
  let c2 := (((s.c <<< 21) % U32) ||| (s.c >>> 11)) % U32
  let d2 := (s.d + 1) % U32
  let t1 := (t0 + d2) % U32
  let c3 := (c2 + t1) % U32
  (t1, ⟨a2, b2, c3, d2⟩)

/-- `SFC32::next()`: value `(float)t / 4294967296.0f` and the advanced state. -/
def SFC32.next (s : SFC32) : ℚ × SFC32 :=
  (fround (fround ((s.stepT.1 : ℕ) : ℚ) / (U32 : ℚ)), s.stepT.2)

/-- `SFC32::randomInt(min, max)`:
`(int)std::floor(next() * (max - min + 1)) + min`.  The `int` range width is
converted to `float` (`fround`), the product is one rounded float
multiplication, `std::floor` is exact on floats, and the cast back to `int`
preserves the (non-negative, small) integral value. -/
def SFC32.randomInt (s : SFC32) (min max : ℤ) : ℤ × SFC32 :=
  (⌊fround (s.next.1 * fround ((max - min + 1 : ℤ) : ℚ))⌋ + min, s.next.2)

theorem stepT_lt (s : SFC32) : (s.stepT).1 < U32 := by
  unfold SFC32.stepT
  exact Nat.mod_lt _ (by norm_num [U32])

/-!
Scale table and degree-to-note conversion of src/Generator.hpp.  A scale is
stored as a fixed 12-slot interval array (padded with `-1`) plus its length.
-/

def MAX_STEPS : ℕ := 64
def BAR_LEN : ℕ := 16
def SCALE_SIZE : ℕ := 7

structure ScaleData where
  intervals : List ℤ
  length : ℕ
deriving DecidableEq

def SCALES : List ScaleData := [
  ⟨[0, 2, 4, 5, 7, 9, 11, -1, -1, -1, -1, -1], 7⟩,
  ⟨[0, 2, 3, 5, 7, 8, 10, -1, -1, -1, -1, -1], 7⟩,
  ⟨[0, 2, 3, 5, 7, 9, 10, -1, -1, -1, -1, -1], 7⟩,
  ⟨[0, 2, 4, 5, 7, 9, 10, -1, -1, -1, -1, -1], 7⟩,
  ⟨[0, 2, 4, 6, 7, 9, 11, -1, -1, -1, -1, -1], 7⟩,
  ⟨[0, 1, 3, 5, 7, 8, 10, -1, -1, -1, -1, -1], 7⟩,
  ⟨[0, 1, 3, 5, 6, 8, 10, -1, -1, -1, -1, -1], 7⟩,
  ⟨[0, 2, 3, 5, 7, 8, 11, -1, -1, -1, -1, -1], 7⟩,
  ⟨[0, 2, 4, 5, 7, 8, 11, -1, -1, -1, -1, -1], 7⟩,
  ⟨[0, 2, 3, 6, 7, 9, 10, -1, -1, -1, -1, -1], 7⟩,
  ⟨[0, 1, 4, 5, 7, 8, 10, -1, -1, -1, -1, -1], 7⟩,
  ⟨[0, 2, 3, 5, 7, 9, 11, -1, -1, -1, -1, -1], 7⟩,
  ⟨[0, 2, 4, 6, 8, 9, 11, -1, -1, -1, -1, -1], 7⟩,
  ⟨[0, 2, 4, 6, 7, 9, 10, -1, -1, -1, -1, -1], 7⟩,
  ⟨[0, 2, 3, 6, 7, 8, 11, -1, -1, -1, -1, -1], 7⟩,
  ⟨[0, 1, 3, 4, 6, 8, 10, -1, -1, -1, -1, -1], 7⟩,
  ⟨[0, 1, 4, 5, 7, 9, 10, -1, -1, -1, -1, -1], 7⟩,
  ⟨[0, 1, 4, 5, 7, 8, 11, -1, -1, -1, -1, -1], 7⟩,
  ⟨[0, 3, 5, 7, 10, -1, -1, -1, -1, -1, -1, -1], 5⟩,
  ⟨[0, 2, 4, 7, 9, -1, -1, -1, -1, -1, -1, -1], 5⟩,
  ⟨[0, 3, 5, 6, 7, 10, -1, -1, -1, -1, -1, -1], 6⟩,
  ⟨[0, 2, 4, 6, 8, 10, -1, -1, -1, -1, -1, -1], 6⟩,
  ⟨[0, 1, 2, 3, 4, 5, 6, 7, 8, 9, 10, 11], 12⟩,
  ⟨[0, 1, 5, 7, 10, -1, -1, -1, -1, -1, -1, -1], 5⟩]

/-- `getNoteInScale(note, scale, root, octave)` of src/Generator.hpp: rests
(`note < 0`) pass through as `-1`; otherwise the degree index wraps modulo the
scale length, each full wrap adding one octave.  `scale` is the enum value
(list index); for `note ≥ 0` and the positive length the C++ `%` and `/` on
`int` agree with the Euclidean operations used here. -/
def getNoteInScale (note : ℤ) (scale : ℕ) (root : ℤ := 0) (octave : ℤ := 0) : ℤ :=
  if note < 0 then -1
  else
    let scaleData := SCALES.getD scale ⟨[], 1⟩
    let len : ℤ := (scaleData.length : ℤ)
    let wrappedIndex := note % len
    let octaveOffset := note / len
    scaleData.intervals.getD wrappedIndex.toNat 0 + root + 12 * (octave + octaveOffset)

/-!
Step containers of src/Generator.hpp: the resolved `SequenceStep`, the
per-step `MasterStep` descriptor and the `MasterPattern` with its two
priority orderings and the user mute mask.  The fixed-capacity C++ arrays
(sizes 16, 7, 64, 64) are modelled by lists, read through `List.getD` just as
the C++ reads `arr[i]`.
-/

structure SequenceStep where
  note : ℤ
  octave : ℤ
  accent : Bool
  slide : Bool
deriving DecidableEq

def SequenceStep.isRest (s : SequenceStep) : Bool := s.note < 0

structure MasterStep where
  notePoolIndex : ℤ
  octave : ℤ
  accentProb : ℚ
  slideProb : ℚ
deriving DecidableEq

instance : Inhabited MasterStep := ⟨⟨0, 0, 1/2, 1/2⟩⟩

structure MasterPattern where
  barActivationOrder : List ℤ
  scalePriorityOrder : List ℤ
  steps : List MasterStep
  muted : List Bool
deriving DecidableEq

/-- The `MasterPattern()` default constructor: identity orderings, all steps
`{0, 0, 0.5f, 0.5f}`, no mutes. -/
def MasterPattern.init : MasterPattern :=
  { barActivationOrder := (List.range BAR_LEN).map Int.ofNat,
    scalePriorityOrder := (List.range SCALE_SIZE).map Int.ofNat,
    steps := List.replicate MAX_STEPS default,
    muted := List.replicate MAX_STEPS false }

instance : Inhabited MasterPattern := ⟨MasterPattern.init⟩

/-- `MasterPattern::isStepActive(step, density)`: the bar position
`step % 16` is active iff it occurs among the first
`max(0, round(16 * density / 100.0f))` entries of `barActivationOrder`.
`16 * density` and the division by `100.0f` are float operations;
`std::round` is `rha`; the `static_cast<int>` preserves the integral value. -/
def MasterPattern.isStepActive (mp : MasterPattern) (step : ℕ) (density : ℚ) : Bool :=
  let barPos : ℤ := ((step % BAR_LEN : ℕ) : ℤ)
  let activeCount : ℤ := max 0 (rha (fround (fround ((16:ℚ) * density) / 100)))
  (List.range (min activeCount.toNat BAR_LEN)).any
    (fun i => mp.barActivationOrder.getD i 0 == barPos)

/-- `MasterPattern::getScaleDegree(step, spread, quantizeToPool)`:
`spreadCount = max(1, round(7 * spread / 100.0f))`; a pool index inside the
spread pool resolves through `scalePriorityOrder`, one outside it quantizes
to the root slot (or is a rest when `quantizeToPool` is false). -/
def MasterPattern.getScaleDegree (mp : MasterPattern) (step : ℕ) (spread : ℚ)
    (quantizeToPool : Bool := true) : ℤ :=
  let ms := mp.steps.getD step default
  let spreadCount : ℤ := max 1 (rha (fround (fround ((7:ℚ) * spread) / 100)))
  if ms.notePoolIndex < spreadCount then
    mp.scalePriorityOrder.getD ms.notePoolIndex.toNat 0
  else if quantizeToPool then
    mp.scalePriorityOrder.getD 0 0
  else
    -1

/-- `MasterPattern::getStep(step, density, spread, accentsDensity,
slidesDensity, quantizeToPool)`: user mute first, then the density mask, then
spread resolution, then the accent/slide threshold comparisons (each density
is divided by `100.0f` as a float before the exact float comparison). -/
def MasterPattern.getStep (mp : MasterPattern) (step : ℕ)
    (density spread accentsDensity slidesDensity : ℚ)
    (quantizeToPool : Bool := true) : SequenceStep :=
  if mp.muted.getD step false then ⟨-1, 0, false, false⟩
  else if ¬ mp.isStepActive step density then ⟨-1, 0, false, false⟩
  else
    let scaleDegree := mp.getScaleDegree step spread quantizeToPool
    if scaleDegree < 0 then ⟨-1, 0, false, false⟩
    else
      let ms := mp.steps.getD step default
      ⟨scaleDegree, ms.octave,
       decide (ms.accentProb < fround (accentsDensity / 100)),
       decide (ms.slideProb < fround (slidesDensity / 100))⟩

/-- `MasterPattern::clearMutes()`. -/
def MasterPattern.clearMutes (mp : MasterPattern) : MasterPattern :=
  { mp with muted := List.replicate MAX_STEPS false }

/-!
The two identical descending bubble sorts of `generateMaster` (over the 7
weighted scale degrees and the 16 weighted bar positions).  `bubblePassCnt k`
is the inner `j`-loop limited to `k` adjacent comparisons, swapping when the
left weight is smaller; `bubbleIter` is the outer `i`-loop running passes of
lengths `n-1, n-2, ..., 1`. -/

def bubblePassCnt : ℕ → List (ℤ × ℚ) → List (ℤ × ℚ)
  | k+1, x :: y :: rest =>
      if x.2 < y.2 then y :: bubblePassCnt k (x :: rest) else x :: bubblePassCnt k (y :: rest)
  | _, l => l

def bubbleIter : ℕ → ℕ → List (ℤ × ℚ) → List (ℤ × ℚ)
  | 0, _, l => l
  | n+1, cnt, l => bubbleIter n (cnt - 1) (bubblePassCnt cnt l)

def bubbleSortDesc (l : List (ℤ × ℚ)) : List (ℤ × ℚ) :=
  bubbleIter (l.length - 1) (l.length - 1) l

/-!
`generateMaster(seed, output)` of src/Generator.hpp: the exact draw order is
7 scale weights, 16 bar weights, then for each of the 64 steps the optional
downbeat gate draw, the pool-index draw (skipped when the gate fires), the
octave draw, the accent draw and the slide draw.
-/

def drawN : ℕ → SFC32 → List ℚ × SFC32
  | 0, s => ([], s)
  | n+1, s =>
      let rest := drawN n s.next.2
      (s.next.1 :: rest.1, rest.2)

/-- Weight adjustment of scale degree `i`: `+999.0f` on the root,
`+0.5f` on degree 4 (the fifth), as float additions. -/
def adjustScaleWeight (i : ℕ) (w : ℚ) : ℚ :=
  let w2 := if i = 0 then fround (w + 999) else w
  if i = 4 then fround (w2 + 1/2) else w2

/-- Weight adjustment of bar position `i`: `+0.5f` on downbeats and another
`+0.5f` on position 0, as float additions. -/
def adjustBarWeight (i : ℕ) (w : ℚ) : ℚ :=
  let w2 := if i % 4 = 0 then fround (w + 1/2) else w
  if i = 0 then fround (w2 + 1/2) else w2

def weightedFrom (adjust : ℕ → ℚ → ℚ) : ℕ → List ℚ → List (ℤ × ℚ)
  | _, [] => []
  | i, w :: rest => ((i : ℤ), adjust i w) :: weightedFrom adjust (i+1) rest

def weightedList (adjust : ℕ → ℚ → ℚ) (ws : List ℚ) : List (ℤ × ℚ) :=
  weightedFrom adjust 0 ws

/-- Step content generation for step `i`: downbeats draw a gate and force pool
index 0 when the draw exceeds `0.3f`, otherwise the pool index is
`randomInt(0, 6)`; then octave `randomInt(-1, 1)`, accent and slide draws. -/
def genStep (s : SFC32) (i : ℕ) : MasterStep × SFC32 :=
  let r1 :=
    if i % 4 = 0 then
      if fround (3/10) < s.next.1 then ((0 : ℤ), s.next.2) else s.next.2.randomInt 0 6
    else s.randomInt 0 6
  let r2 := r1.2.randomInt (-1) 1
  let r3 := r2.2.next
  let r4 := r3.2.next
  (⟨r1.1, r2.1, r3.1, r4.1⟩, r4.2)

def genSteps : ℕ → ℕ → SFC32 → List MasterStep × SFC32
  | 0, _, s => ([], s)
  | n+1, i, s =>
      let ms := genStep s i
      let rest := genSteps n (i+1) ms.2
      (ms.1 :: rest.1, rest.2)

/-- `generateMaster(seed, output)`: overwrites the orderings and the 64 step
descriptors of `output`; the mute mask is left untouched (it is cleared
separately by `generateNewPattern`, not by `generateMaster`). -/
def generateMaster (seed : ℕ) (output : MasterPattern) : MasterPattern :=
  let rng0 := SFC32.init seed
  let d1 := drawN SCALE_SIZE rng0
  let scaleSorted := bubbleSortDesc (weightedList adjustScaleWeight d1.1)
  let d2 := drawN BAR_LEN d1.2
  let barSorted := bubbleSortDesc (weightedList adjustBarWeight d2.1)
  { output with
    barActivationOrder := barSorted.map Prod.fst,
    scalePriorityOrder := scaleSorted.map Prod.fst,
    steps := (genSteps MAX_STEPS 0 d2.2).1 }

/-!
Playback engine pieces of `AcidSeq::process` (src/AcidSeq.cpp).
-/

/-- Clock-period measurement on a rising edge (src/AcidSeq.cpp lines
223-228): the elapsed time is adopted as the new estimate iff
`timeSinceLastClock > 0.01f && timeSinceLastClock < 2.0f` (both strict);
otherwise the previous estimate is kept.  `0.01f` is the binary32 value
nearest to 1/100; `2.0f` is exact. -/
def updateClockPeriod (measured elapsed : ℚ) : ℚ :=
  if fround (1/100) < elapsed ∧ elapsed < 2 then elapsed else measured

/-- Period estimate after a sequence of measured gaps between edges. -/
def periodAfterEdges (init : ℚ) (gaps : List ℚ) : ℚ :=
  gaps.foldl updateClockPeriod init

/-- Step advance on a clock edge (src/AcidSeq.cpp lines 229-233):
`currentStep++; if (currentStep >= patternLength) currentStep = 0;`. -/
def advanceStep (currentStep patternLength : ℤ) : ℤ :=
  if patternLength ≤ currentStep + 1 then 0 else currentStep + 1

/-- Previous-step lookup with wraparound (src/AcidSeq.cpp line 246):
`(currentStep - 1 + patternLength) % patternLength`; for a non-negative
dividend the C++ `%` agrees with the Euclidean `%` used here. -/
def prevStepIndex (currentStep patternLength : ℤ) : ℤ :=
  (currentStep - 1 + patternLength) % patternLength

/-- Slide and pulse state owned by the playback engine.  The two
`dsp::PulseGenerator`s are modelled by their remaining high time;
`trigger(duration)` re-arms to the longer of the remaining and the new
duration. -/
structure EngineState where
  currentPitch : ℚ
  slideTargetPitch : ℚ
  slideRate : ℚ
  retriggerGapRemaining : ℚ
  gateRemaining : ℚ
  accentRemaining : ℚ
  currentSlideActive : Bool
deriving DecidableEq

/-- The note branch of the clock-edge handler (src/AcidSeq.cpp lines
238-283), entered when the resolved step is not a rest.  `prevStepData` is
the resolution of the previous step index.  Pitch:
`getNoteInScale(step.note, scale, rootNote, step.octave + octaveOffset)`
divided by `12.0f`.  When the previous step slid (non-rest and slide flag):
no retrigger — only the slide target and the constant ~50 ms ramp rate are
set, and the gate is re-armed (to `period * 1.1f`) only when the new step
itself slides.  Otherwise: pitch snaps, the gate is armed
(`period * 1.1f` when sliding, else `0.02f`), a 1 ms forced-low retrigger
gap is scheduled if the gate was still high, and an accent pulse of the same
length is armed when accented. -/
def onNote (st : EngineState) (step prevStepData : SequenceStep)
    (scale : ℕ) (rootNote octaveOffset : ℤ) (measuredClockPeriod sampleRate : ℚ) :
    EngineState :=
  let midiNote := getNoteInScale step.note scale rootNote (step.octave + octaveOffset)
  let pitchVoltage := fround ((midiNote : ℚ) / 12)
  let gateTime :=
    if step.slide then fround (measuredClockPeriod * fround (11/10)) else fround (1/50)
  if !prevStepData.isRest && prevStepData.slide then
    { st with
      slideTargetPitch := pitchVoltage,
      slideRate := fround (fround (pitchVoltage - st.currentPitch) /
        fround (fround (1/20) * sampleRate)),
      gateRemaining :=
        if step.slide then max st.gateRemaining (fround (measuredClockPeriod * fround (11/10)))
        else st.gateRemaining,
      currentSlideActive := step.slide }
  else
    { st with
      currentPitch := pitchVoltage,
      slideTargetPitch := pitchVoltage,
      slideRate := 0,
      retriggerGapRemaining :=
        if 0 < st.gateRemaining then fround (1/1000) else st.retriggerGapRemaining,
      gateRemaining := max st.gateRemaining gateTime,
      accentRemaining :=
        if step.accent then max st.accentRemaining gateTime else st.accentRemaining,
      currentSlideActive := step.slide }

/-!
Serialization (`AcidSeq::dataToJson` / `AcidSeq::dataFromJson`,
src/AcidSeq.cpp lines 359-499).  The JSON tree built by `dataToJson` is
modelled by `SavedState`, whose fields are exactly the values the C++ writes
(`json_real` stores a binary64, which represents every binary32 value
exactly; reading it back into a `float` member is modelled by `fround`).
-/

structure SavedStep where
  p : ℤ
  o : ℤ
  a : ℚ
  s : ℚ
  m : Bool
deriving DecidableEq

instance : Inhabited SavedStep := ⟨⟨0, 0, 0, 0, false⟩⟩

structure SavedState where
  version : ℤ
  seed : ℕ
  currentStep : ℤ
  barActivationOrder : List ℤ
  scalePriorityOrder : List ℤ
  steps : List SavedStep
  currentSlideActive : Bool
  currentPitch : ℚ
  slideTargetPitch : ℚ
  slideRate : ℚ
deriving DecidableEq

def JSON_VERSION : ℤ := 3

/-- `AcidSeq::dataToJson`: writes the version, seed, playback position, the
16 bar-activation entries, the 7 scale-priority entries, the 64 step records
(pool index, octave, accent roll, slide roll, mute flag) and the in-flight
slide state. -/
def dataToJson (seed : ℕ) (currentStep : ℤ) (mp : MasterPattern)
    (slideActive : Bool) (curPitch targetPitch slideRate : ℚ) : SavedState :=
  { version := JSON_VERSION,
    seed := seed,
    currentStep := currentStep,
    barActivationOrder := (List.range BAR_LEN).map (fun i => mp.barActivationOrder.getD i 0),
    scalePriorityOrder := (List.range SCALE_SIZE).map (fun i => mp.scalePriorityOrder.getD i 0),
    steps := (List.range MAX_STEPS).map (fun i =>
      { p := (mp.steps.getD i default).notePoolIndex,
        o := (mp.steps.getD i default).octave,
        a := (mp.steps.getD i default).accentProb,
        s := (mp.steps.getD i default).slideProb,
        m := mp.muted.getD i false }),
    currentSlideActive := slideActive,
    currentPitch := curPitch,
    slideTargetPitch := targetPitch,
    slideRate := slideRate }

/-- The array-loading loops of `dataFromJson`: entry `i` of the fixed
`cap`-slot array is overwritten when `i < size(saved)`, otherwise kept. -/
def loadArray (cap : ℕ) (old new : List ℤ) : List ℤ :=
  (List.range cap).map (fun i => if i < new.length then new.getD i 0 else old.getD i 0)

/-- `AcidSeq::dataFromJson`: restores the seed and playback position; when
the snapshot has schema version ≥ 2 and carries the master-pattern backup,
the orderings, step descriptors and mute mask are loaded in place (float
fields through the binary64 round trip, hence `fround`); otherwise the
master pattern is regenerated deterministically from the restored seed. -/
def dataFromJson (sv : SavedState) (old : MasterPattern) : ℕ × ℤ × MasterPattern :=
  let mp :=
    if 2 ≤ sv.version then
      { barActivationOrder := loadArray BAR_LEN old.barActivationOrder sv.barActivationOrder,
        scalePriorityOrder := loadArray SCALE_SIZE old.scalePriorityOrder sv.scalePriorityOrder,
        steps := (List.range MAX_STEPS).map (fun i =>
          if i < sv.steps.length then
            { notePoolIndex := (sv.steps.getD i default).p,
              octave := (sv.steps.getD i default).o,
              accentProb := fround ((sv.steps.getD i default).a),
              slideProb := fround ((sv.steps.getD i default).s) }
          else old.steps.getD i default),
        muted := (List.range MAX_STEPS).map (fun i =>
          if i < sv.steps.length then (sv.steps.getD i default).m else old.muted.getD i false) }
    else generateMaster sv.seed old
  (sv.seed, sv.currentStep, mp)

/-! Helper bounds for applying `fround_mono` to program-scale values. -/

theorem twoPow824_big : (4294967296 : ℚ) < (2:ℚ)^(824 : ℤ) := by
  have he : (2:ℚ)^(824 : ℤ) = ((2^824 : ℕ) : ℚ) := by
    rw [twoPow_cast 824]
    norm_num
  rw [he]
  have h : (4294967296 : ℕ) < 2^824 := by norm_num
  exact_mod_cast h

theorem fround_mono_le {x y : ℚ} (hx : -(4294967296 : ℚ) ≤ x) (hxy : x ≤ y)
    (hy : y ≤ (4294967296 : ℚ)) : fround x ≤ fround y :=
  fround_mono (lt_of_lt_of_le (by linarith [twoPow824_big]) hx) hxy
    (lt_of_le_of_lt hy twoPow824_big)

/-! Concrete binary32 values, certified by evaluation. -/

section ConcreteFloatValues

attribute [local semireducible] bsrStep bitlen Rat.add Rat.mul Rat.inv Rat.sub

theorem fround_one : fround 1 = 1 := by decide

theorem fround_half : fround (1/2) = 1/2 := by decide

theorem fround_threeHalves : fround (3/2) = 3/2 := by decide

theorem fround_999 : fround 999 = 999 := by decide

theorem fround_1600 : fround 1600 = 1600 := by decide

theorem fround_u32 : fround 4294967296 = 4294967296 := by decide

theorem fround_sixteenth : fround (1/16) = 1/16 := by decide

theorem fround_4096 : fround 4096 = 4096 := by decide

theorem fround_thirtySecond : fround (1/32) = 1/32 := by decide

theorem fround_65536 : fround 65536 = 65536 := by decide

theorem fround_tiny : fround (1/1048576) = 1/1048576 := by decide

theorem fround_inv20_lb : 1/32 ≤ fround (1/20) := by decide

theorem fround_inv20_ub : fround (1/20) ≤ 1/16 := by decide

end ConcreteFloatValues

theorem fround_pos_le {x : ℚ} (h : (1/1048576 : ℚ) ≤ x) (hup : x ≤ (4294967296 : ℚ)) :
    (1/1048576 : ℚ) ≤ fround x := by
  have h2 := fround_mono_le (by norm_num) h hup
  rwa [fround_tiny] at h2

/-!
Claim C3 — mute precedence.
-/

/-- Claim C3: for every master pattern, every step index and all density,
spread, accent-density and slide-density values, a muted step resolves to the
rest `{-1, 0, false, false}` regardless of the four parameters. -/
theorem mute_forces_rest (mp : MasterPattern) (step : ℕ)
    (density spread accentsDensity slidesDensity : ℚ) (quantizeToPool : Bool)
    (h : mp.muted.getD step false = true) :
    mp.getStep step density spread accentsDensity slidesDensity quantizeToPool =
      ⟨-1, 0, false, false⟩ := by
  unfold MasterPattern.getStep
  rw [if_pos h]

/-!
Claim C8 — step advance stays in bounds.
-/

/-- Claim C8: advancing the clock with a pattern length in `[1, 64]` from any
step index `≥ -1` (the not-yet-started marker; the only values the state
machine produces) lands in `[0, patternLength)`, in particular inside the
64-entry arrays, even when the length was shrunk below the current index; and
the previous-step lookup from the advanced position is in bounds as well. -/
theorem step_advance_in_bounds (currentStep patternLength : ℤ)
    (h1 : -1 ≤ currentStep) (h2 : 1 ≤ patternLength) (h3 : patternLength ≤ 64) :
    0 ≤ advanceStep currentStep patternLength ∧
    advanceStep currentStep patternLength < patternLength ∧
    advanceStep currentStep patternLength < 64 ∧
    0 ≤ prevStepIndex (advanceStep currentStep patternLength) patternLength ∧
    prevStepIndex (advanceStep currentStep patternLength) patternLength < patternLength ∧
    prevStepIndex (advanceStep currentStep patternLength) patternLength < 64 := by
  unfold advanceStep prevStepIndex
  have hne : patternLength ≠ 0 := by omega
  split
  · have hm1 := Int.emod_nonneg (0 - 1 + patternLength) hne
    have hm2 := Int.emod_lt_of_pos (0 - 1 + patternLength) (by omega : 0 < patternLength)
    omega
  · have hm1 := Int.emod_nonneg (currentStep + 1 - 1 + patternLength) hne
    have hm2 := Int.emod_lt_of_pos (currentStep + 1 - 1 + patternLength)
      (by omega : 0 < patternLength)
    omega

/-!
Claims C1, C2, C6 and the associated evaluations.
-/

section ComputationalClaims

attribute [local semireducible] bsrStep bitlen Rat.add Rat.mul Rat.inv Rat.sub

/-- Claim C1 (code bug): `SFC32::next()` does NOT always return a float in
`[0, 1)`.  From seed `2863311530` the first 32-bit temporary is
`t = 3*seed + 1 = 2^32 - 1`; the cast `(float)t` rounds up to `2^32`, so
`next()` returns exactly `1.0f`, and `randomInt(0, 6)` built on that draw
returns `7`, outside the closed range `[0, 6]`. -/
theorem next_can_return_one :
    ((SFC32.init 2863311530).next).1 = 1 ∧
    ((SFC32.init 2863311530).randomInt 0 6).1 = 7 ∧
    ((SFC32.init 2863311530).randomInt (-1) 1).1 = 2 := by
  refine ⟨by decide, by decide, by decide⟩

/-- Claim C2 (code bug): the generated master pattern does NOT always satisfy
`octave ∈ {-1, 0, +1}`.  With seed `225197` the octave draw of step 8 hits a
temporary that rounds to `1.0f`, making `randomInt(-1, 1)` return `2`
(`floor(1.0 * 3) - 1`), contradicting the struct documentation
`int octave; // -1, 0, or 1`. -/
theorem generated_octave_out_of_range :
    ((generateMaster 225197 MasterPattern.init).steps.getD 8 default).octave = 2 := by
  decide

/-- Claim C6 (amended): the clock-period estimate is replaced iff the elapsed
time lies in the OPEN interval `(0.01f, 2.0f)` — the source compares with
strict `>` and `<` — and in scenario D (gaps of 0.5 s then 3.0 s) the
estimate ends at 0.5 s. -/
theorem clock_period_update_amended :
    (∀ measured elapsed : ℚ,
      (fround (1/100) < elapsed ∧ elapsed < 2 →
        updateClockPeriod measured elapsed = elapsed) ∧
      (elapsed ≤ fround (1/100) ∨ 2 ≤ elapsed →
        updateClockPeriod measured elapsed = measured)) ∧
    periodAfterEdges (1/8) [1/2, 3] = 1/2 := by
  constructor
  · intro measured elapsed
    constructor
    · intro h
      unfold updateClockPeriod
      rw [if_pos h]
    · intro h
      unfold updateClockPeriod
      rw [if_neg]
      intro hc
      rcases h with h | h <;> rcases hc with ⟨hc1, hc2⟩ <;> linarith
  · decide

/-- Counterexample to claim C6 as stated: an elapsed time of exactly 2.0 s
lies in the closed interval `[10 ms, 2 s]`, yet the code keeps the previous
estimate (strict comparison `< 2.0f` fails). -/
theorem clock_period_closed_iff_fails :
    (fround (1/100) ≤ (2:ℚ) ∧ (2:ℚ) ≤ 2) ∧ updateClockPeriod (1/2) 2 = 1/2 := by
  refine ⟨⟨by decide, le_refl 2⟩, by decide⟩

/-- Witness for `clock_period_update_amended`: the 0.5 s gap is adopted and
the 3.0 s gap is discarded. -/
theorem clock_period_update_witness :
    updateClockPeriod (1/8) (1/2) = 1/2 ∧ updateClockPeriod (1/2) 3 = 1/2 :=
  ⟨(clock_period_update_amended.1 (1/8) (1/2)).1 ⟨by decide, by norm_num⟩,
   (clock_period_update_amended.1 (1/2) 3).2 (Or.inr (by norm_num))⟩

/-- Witness for `mute_forces_rest` at a concrete muted pattern and step. -/
theorem mute_forces_rest_witness :
    ({ MasterPattern.init with muted := List.replicate 64 true } : MasterPattern).getStep
      5 50 50 25 15 true = ⟨-1, 0, false, false⟩ :=
  mute_forces_rest _ 5 50 50 25 15 true (by decide)

/-- Witness for `step_advance_in_bounds`: a pattern shrunk to 16 steps while
the playhead was at step 50 wraps to step 0, with a valid previous index. -/
theorem step_advance_in_bounds_witness :
    0 ≤ advanceStep 50 16 ∧ advanceStep 50 16 < 16 ∧ advanceStep 50 16 < 64 ∧
    0 ≤ prevStepIndex (advanceStep 50 16) 16 ∧
    prevStepIndex (advanceStep 50 16) 16 < 16 ∧
    prevStepIndex (advanceStep 50 16) 16 < 64 :=
  step_advance_in_bounds 50 16 (by norm_num) (by norm_num) (by norm_num)

end ComputationalClaims

/-!
Claim C10 — degree-to-note conversion.
-/

theorem scales_length_pos :
    ∀ s : ℕ, s < 24 → 0 < (SCALES.getD s ⟨[], 1⟩).length := by decide

theorem scales_intervals_bounds :
    ∀ s : ℕ, s < 24 → ∀ i : ℕ, i < (SCALES.getD s ⟨[], 1⟩).length →
      0 ≤ (SCALES.getD s ⟨[], 1⟩).intervals.getD i 0 ∧
      (SCALES.getD s ⟨[], 1⟩).intervals.getD i 0 ≤ 11 := by decide

/-- Claim C10: `getNoteInScale` passes rests through (`-1` for negative
degrees) and otherwise returns
`intervals[degree % length] + root + 12 * (octave + degree / length)`,
so out-of-range degrees wrap into higher octaves instead of reading the `-1`
padding (the accessed interval is always in `[0, 11]`); on the 5-note
pentatonic-minor scale (index 18), degrees 5 and 6 land one octave up. -/
theorem getNoteInScale_wraps (note : ℤ) (scale : ℕ) (root octave : ℤ)
    (hs : scale < 24) :
    (note < 0 → getNoteInScale note scale root octave = -1) ∧
    (0 ≤ note →
      getNoteInScale note scale root octave =
        (SCALES.getD scale ⟨[], 1⟩).intervals.getD
            (note % ((SCALES.getD scale ⟨[], 1⟩).length : ℤ)).toNat 0 +
          root + 12 * (octave + note / ((SCALES.getD scale ⟨[], 1⟩).length : ℤ)) ∧
      0 ≤ (SCALES.getD scale ⟨[], 1⟩).intervals.getD
            (note % ((SCALES.getD scale ⟨[], 1⟩).length : ℤ)).toNat 0 ∧
      (SCALES.getD scale ⟨[], 1⟩).intervals.getD
            (note % ((SCALES.getD scale ⟨[], 1⟩).length : ℤ)).toNat 0 ≤ 11) ∧
    getNoteInScale 5 18 root octave = root + 12 * (octave + 1) ∧
    getNoteInScale 6 18 root octave = 3 + root + 12 * (octave + 1) := by
  have hlen := scales_length_pos scale hs
  refine ⟨?_, ?_, ?_, ?_⟩
  · intro h
    unfold getNoteInScale
    rw [if_pos h]
  · intro h
    unfold getNoteInScale
    rw [if_neg (not_lt.mpr h)]
    refine ⟨rfl, ?_, ?_⟩
    · have hzne : ((SCALES.getD scale ⟨[], 1⟩).length : ℤ) ≠ 0 := by
        exact_mod_cast Nat.pos_iff_ne_zero.mp hlen
      have hm1 := Int.emod_nonneg note hzne
      have hm2 := Int.emod_lt_of_pos note
        (by exact_mod_cast hlen : (0:ℤ) < ((SCALES.getD scale ⟨[], 1⟩).length : ℤ))
      have hidx : (note % ((SCALES.getD scale ⟨[], 1⟩).length : ℤ)).toNat <
          (SCALES.getD scale ⟨[], 1⟩).length := by omega
      exact (scales_intervals_bounds scale hs _ hidx).1
    · have hzne : ((SCALES.getD scale ⟨[], 1⟩).length : ℤ) ≠ 0 := by
        exact_mod_cast Nat.pos_iff_ne_zero.mp hlen
      have hm1 := Int.emod_nonneg note hzne
      have hm2 := Int.emod_lt_of_pos note
        (by exact_mod_cast hlen : (0:ℤ) < ((SCALES.getD scale ⟨[], 1⟩).length : ℤ))
      have hidx : (note % ((SCALES.getD scale ⟨[], 1⟩).length : ℤ)).toNat <
          (SCALES.getD scale ⟨[], 1⟩).length := by omega
      exact (scales_intervals_bounds scale hs _ hidx).2
  · show (0:ℤ) + root + 12 * (octave + 1) = root + 12 * (octave + 1)
    omega
  · show (3:ℤ) + root + 12 * (octave + 1) = 3 + root + 12 * (octave + 1)
    omega

/-!
Claim C4 — density monotonicity.
-/

theorem toNat_max_zero (a : ℤ) : (max 0 a).toNat = a.toNat := by
  rcases le_total 0 a with h | h
  · rw [max_eq_right h]
  · rw [max_eq_left h]
    omega

/-- Claim C4: raising the density never deactivates an active step: for
`d1 ≤ d2 ≤ 100`, a bar position active at density `d1` is active at `d2`
(the float pipeline `round(16 * d / 100.0f)` is monotone, and the active set
is a prefix of `barActivationOrder`). -/
theorem density_monotone (mp : MasterPattern) (step : ℕ) (d1 d2 : ℚ)
    (h12 : d1 ≤ d2) (h100 : d2 ≤ 100)
    (h : mp.isStepActive step d1 = true) : mp.isStepActive step d2 = true := by
  unfold MasterPattern.isStepActive at h ⊢
  rw [List.any_eq_true] at h ⊢
  obtain ⟨i, hi, hbeq⟩ := h
  refine ⟨i, ?_, hbeq⟩
  rw [List.mem_range] at hi ⊢
  rw [Nat.lt_min] at hi ⊢
  refine ⟨?_, hi.2⟩
  have hac : (rha (fround (fround ((16:ℚ) * d1) / 100))).toNat ≤
      (rha (fround (fround ((16:ℚ) * d2) / 100))).toNat := by
    rcases le_or_lt d1 0 with hd1 | hd1
    · have hq1 : fround ((16:ℚ) * d1) ≤ 0 := fround_nonpos (by linarith)
      have hq2 : fround (fround ((16:ℚ) * d1) / 100) ≤ 0 := fround_nonpos (by linarith)
      have hq3 := rha_nonpos hq2
      omega
    · have hlb1 : (0:ℚ) ≤ fround ((16:ℚ) * d1) := fround_nonneg (by linarith)
      have hm1 : fround ((16:ℚ) * d1) ≤ fround ((16:ℚ) * d2) :=
        fround_mono_le (by linarith) (by linarith) (by linarith)
      have hub2 : fround ((16:ℚ) * d2) ≤ 1600 := by
        have h2 := fround_mono_le (x := (16:ℚ) * d2) (y := 1600)
          (by linarith) (by linarith) (by norm_num)
        rwa [fround_1600] at h2
      have hm2 : fround (fround ((16:ℚ) * d1) / 100) ≤ fround (fround ((16:ℚ) * d2) / 100) :=
        fround_mono_le (by linarith) (by linarith) (by linarith)
      have hm3 := rha_mono hm2
      omega
  omega

/-!
Claim C5 — the root always ranks first in `scalePriorityOrder`.
-/

theorem next_mem (s : SFC32) : 0 ≤ s.next.1 ∧ s.next.1 ≤ 1 := by
  unfold SFC32.next
  constructor
  · exact fround_nonneg (div_nonneg (fround_nonneg (by positivity)) (by norm_num [U32]))
  · have ht : ((s.stepT.1 : ℕ) : ℚ) ≤ 4294967296 := by
      have h1 := stepT_lt s
      have h2 : s.stepT.1 ≤ 4294967296 := by unfold U32 at h1; omega
      exact_mod_cast h2
    have hc0 : (0:ℚ) ≤ ((s.stepT.1 : ℕ) : ℚ) := Nat.cast_nonneg _
    have h1 : fround ((s.stepT.1 : ℕ) : ℚ) ≤ 4294967296 := by
      have h2 := fround_mono_le (x := ((s.stepT.1 : ℕ) : ℚ)) (by linarith) ht (le_refl _)
      rwa [fround_u32] at h2
    have h0 : (0:ℚ) ≤ fround ((s.stepT.1 : ℕ) : ℚ) := fround_nonneg hc0
    have hU : ((U32 : ℕ) : ℚ) = 4294967296 := by norm_num [U32]
    have h3 : fround ((s.stepT.1 : ℕ) : ℚ) / ((U32 : ℕ) : ℚ) ≤ 1 := by
      rw [div_le_one (by rw [hU]; norm_num)]
      linarith
    have hq0 : (0:ℚ) ≤ fround ((s.stepT.1 : ℕ) : ℚ) / ((U32 : ℕ) : ℚ) :=
      div_nonneg h0 (by rw [hU]; norm_num)
    have h4 := fround_mono_le (x := fround ((s.stepT.1 : ℕ) : ℚ) / ((U32 : ℕ) : ℚ))
      (by linarith) h3 (by norm_num)
    rwa [fround_one] at h4

theorem drawN_length : ∀ (n : ℕ) (s : SFC32), ((drawN n s).1).length = n := by
  intro n
  induction n with
  | zero => intro s; rfl
  | succ n ih =>
      intro s
      show (s.next.1 :: (drawN n s.next.2).1).length = n + 1
      simp [ih]

theorem drawN_mem : ∀ (n : ℕ) (s : SFC32) (v : ℚ), v ∈ (drawN n s).1 → 0 ≤ v ∧ v ≤ 1 := by
  intro n
  induction n with
  | zero => intro s v hv; exact absurd hv (List.not_mem_nil v)
  | succ n ih =>
      intro s v hv
      have hv2 : v ∈ s.next.1 :: (drawN n s.next.2).1 := hv
      rcases List.mem_cons.mp hv2 with h | h
      · rw [h]
        exact next_mem s
      · exact ih s.next.2 v h

theorem bubblePassCnt_zero (l : List (ℤ × ℚ)) : bubblePassCnt 0 l = l := rfl

theorem bubblePassCnt_subset : ∀ (k : ℕ) (l : List (ℤ × ℚ)) (p : ℤ × ℚ),
    p ∈ bubblePassCnt k l → p ∈ l := by
  intro k
  induction k with
  | zero =>
      intro l p hp
      rwa [bubblePassCnt_zero] at hp
  | succ k ih =>
      intro l p hp
      match l with
      | [] => exact hp
      | [x] => exact hp
      | x :: y :: rest =>
          have hp2 : p ∈ if x.2 < y.2 then y :: bubblePassCnt k (x :: rest)
              else x :: bubblePassCnt k (y :: rest) := hp
          split at hp2
          · rcases List.mem_cons.mp hp2 with h | h
            · rw [h]
              exact List.mem_cons_of_mem _ (List.mem_cons_self _ _)
            · rcases List.mem_cons.mp (ih _ _ h) with h2 | h2
              · rw [h2]
                exact List.mem_cons_self _ _
              · exact List.mem_cons_of_mem _ (List.mem_cons_of_mem _ h2)
          · rcases List.mem_cons.mp hp2 with h | h
            · rw [h]
              exact List.mem_cons_self _ _
            · exact List.mem_cons_of_mem _ (ih _ _ h)

theorem bubblePassCnt_nil (k : ℕ) : bubblePassCnt k [] = [] := by
  cases k <;> rfl

theorem bubblePassCnt_singleton (k : ℕ) (x : ℤ × ℚ) : bubblePassCnt k [x] = [x] := by
  cases k <;> rfl

theorem bubblePassCnt_cons_of_le {x : ℤ × ℚ} {l : List (ℤ × ℚ)}
    (h : ∀ p ∈ l, p.2 ≤ x.2) : ∀ k, bubblePassCnt k (x :: l) = x :: bubblePassCnt (k-1) l := by
  intro k
  match k, l with
  | 0, l =>
      rw [bubblePassCnt_zero]
      rw [show (0:ℕ) - 1 = 0 from rfl, bubblePassCnt_zero]
  | k+1, [] =>
      rw [bubblePassCnt_singleton, bubblePassCnt_nil]
  | k+1, y :: rest =>
      have hy : y.2 ≤ x.2 := h y (List.mem_cons_self _ _)
      show (if x.2 < y.2 then y :: bubblePassCnt k (x :: rest)
          else x :: bubblePassCnt k (y :: rest)) = _
      rw [if_neg (not_lt.mpr hy)]
      rfl

theorem bubbleIter_head {x : ℤ × ℚ} : ∀ (n cnt : ℕ) (l : List (ℤ × ℚ)),
    (∀ p ∈ l, p.2 ≤ x.2) →
    ∃ l2, bubbleIter n cnt (x :: l) = x :: l2 ∧ ∀ p ∈ l2, p.2 ≤ x.2 := by
  intro n
  induction n with
  | zero =>
      intro cnt l h
      exact ⟨l, rfl, h⟩
  | succ n ih =>
      intro cnt l h
      show ∃ l2, bubbleIter n (cnt-1) (bubblePassCnt cnt (x :: l)) = x :: l2 ∧ _
      rw [bubblePassCnt_cons_of_le h cnt]
      exact ih (cnt-1) (bubblePassCnt (cnt-1) l)
        (fun p hp => h p (bubblePassCnt_subset _ _ _ hp))

theorem weightedFrom_mem {adjust : ℕ → ℚ → ℚ} :
    ∀ (ws : List ℚ) (i : ℕ) (p : ℤ × ℚ), p ∈ weightedFrom adjust i ws →
    ∃ (j : ℕ) (w : ℚ), i ≤ j ∧ w ∈ ws ∧ p = ((j : ℤ), adjust j w) := by
  intro ws
  induction ws with
  | nil =>
      intro i p hp
      exact absurd hp (List.not_mem_nil p)
  | cons w rest ih =>
      intro i p hp
      rcases List.mem_cons.mp hp with h | h
      · exact ⟨i, w, le_refl i, List.mem_cons_self _ _, h⟩
      · obtain ⟨j, w2, hij, hw2, hpe⟩ := ih (i+1) p h
        exact ⟨j, w2, by omega, List.mem_cons_of_mem _ hw2, hpe⟩

theorem adjustScaleWeight_tail_le {i : ℕ} {w : ℚ} (hi : 1 ≤ i) (hw0 : 0 ≤ w)
    (hw1 : w ≤ 1) : adjustScaleWeight i w ≤ 3/2 := by
  unfold adjustScaleWeight
  rw [if_neg (by omega : ¬ i = 0)]
  split
  · have h2 := fround_mono_le (x := w + 1/2) (y := 3/2) (by linarith) (by linarith) (by norm_num)
    rwa [fround_threeHalves] at h2
  · linarith

/-- Claim C5: for every 32-bit seed (indeed every natural seed, truncated by
the constructor) the `scalePriorityOrder` produced by `generateMaster` has
the root degree first: the `+999.0f` weight bias keeps entry 0 at least 999
while every other adjusted weight is at most `3/2`, and the descending bubble
sort never moves a maximal head. -/
theorem root_priority_first (seed : ℕ) (mp : MasterPattern) :
    (generateMaster seed mp).scalePriorityOrder.getD 0 0 = 0 := by
  unfold generateMaster
  have hws : ((drawN SCALE_SIZE (SFC32.init seed)).1).length = SCALE_SIZE :=
    drawN_length _ _
  obtain ⟨w0, rest, hcons⟩ := List.exists_of_length_succ
    ((drawN SCALE_SIZE (SFC32.init seed)).1)
    (show ((drawN SCALE_SIZE (SFC32.init seed)).1).length = 6 + 1 from hws)
  have hw0 := drawN_mem SCALE_SIZE (SFC32.init seed) w0
    (by rw [hcons]; exact List.mem_cons_self _ _)
  show ((bubbleSortDesc (weightedList adjustScaleWeight
      ((drawN SCALE_SIZE (SFC32.init seed)).1))).map Prod.fst).getD 0 0 = 0
  rw [hcons]
  have hWL : weightedList adjustScaleWeight (w0 :: rest) =
      ((0:ℤ), fround (w0 + 999)) :: weightedFrom adjustScaleWeight 1 rest := by
    unfold weightedList
    show ((0:ℤ), adjustScaleWeight 0 w0) :: weightedFrom adjustScaleWeight 1 rest = _
    have hadj : adjustScaleWeight 0 w0 = fround (w0 + 999) := by
      unfold adjustScaleWeight
      norm_num
    rw [hadj]
  rw [hWL]
  have hhead : (999:ℚ) ≤ fround (w0 + 999) := by
    have h2 := fround_mono_le (x := (999:ℚ)) (y := w0 + 999)
      (by norm_num) (by linarith [hw0.1]) (by linarith [hw0.2])
    rwa [fround_999] at h2
  have htail : ∀ p ∈ weightedFrom adjustScaleWeight 1 rest,
      p.2 ≤ ((0:ℤ), fround (w0 + 999)).2 := by
    intro p hp
    obtain ⟨j, w, hj, hw, rfl⟩ := weightedFrom_mem rest 1 p hp
    have hwv := drawN_mem SCALE_SIZE (SFC32.init seed) w
      (by rw [hcons]; exact List.mem_cons_of_mem _ hw)
    have := adjustScaleWeight_tail_le hj hwv.1 hwv.2
    show adjustScaleWeight j w ≤ fround (w0 + 999)
    linarith
  unfold bubbleSortDesc
  obtain ⟨l2, heq, _⟩ := bubbleIter_head
    ((((0:ℤ), fround (w0 + 999)) :: weightedFrom adjustScaleWeight 1 rest).length - 1)
    ((((0:ℤ), fround (w0 + 999)) :: weightedFrom adjustScaleWeight 1 rest).length - 1)
    (weightedFrom adjustScaleWeight 1 rest)
    htail
  rw [heq]
  rfl

/-!
Claim C10 witness and claim C7 — slide-in behaviour of the note branch.
-/

/-- Witness for `getNoteInScale_wraps`: degree 5 on the 5-note
pentatonic-minor scale with root 0 resolves one octave up. -/
theorem getNoteInScale_wraps_witness :
    getNoteInScale 5 18 0 0 = 0 + 12 * (0 + 1) :=
  (getNoteInScale_wraps 5 18 0 0 (by norm_num)).2.2.1

/-- Sign analysis of the slide-rate expression
`fround(fround(pv - cp) / fround(fround(0.05f) * sampleRate))`: for sample
rates in `[1, 2^20]` and a pitch gap of magnitude in `[1/16, 4096]` volts,
the computed rate is nonzero and has the sign of `pv - cp`. -/
theorem slideRate_sign {pv cp sr : ℚ} (hsr1 : 1 ≤ sr) (hsr2 : sr ≤ 1048576)
    (hlb : 1/16 ≤ |pv - cp|) (hub : |pv - cp| ≤ 4096) :
    fround (fround (pv - cp) / fround (fround (1/20) * sr)) ≠ 0 ∧
    (0 < fround (fround (pv - cp) / fround (fround (1/20) * sr)) ↔ cp < pv) := by
  have h20l := fround_inv20_lb
  have h20u := fround_inv20_ub
  have hprod_lb : (1/32 : ℚ) ≤ fround (1/20) * sr := by nlinarith
  have hprod_ub : fround (1/20) * sr ≤ 65536 := by nlinarith
  have hd_lb : (1/32 : ℚ) ≤ fround (fround (1/20) * sr) := by
    have h := fround_mono_le (x := (1/32 : ℚ)) (by norm_num) hprod_lb (by linarith)
    rwa [fround_thirtySecond] at h
  have hd_ub : fround (fround (1/20) * sr) ≤ 65536 := by
    have h := fround_mono_le (x := fround (1/20) * sr) (by linarith) hprod_ub (by norm_num)
    rwa [fround_65536] at h
  have hd0 : (0:ℚ) < fround (fround (1/20) * sr) := by linarith
  rcases lt_trichotomy cp pv with hcase | hcase | hcase
  · have hdpos : (0:ℚ) < pv - cp := by linarith
    rw [abs_of_pos hdpos] at hlb hub
    have hn_lb : (1/16 : ℚ) ≤ fround (pv - cp) := by
      have h := fround_mono_le (x := (1/16 : ℚ)) (by norm_num) hlb (by linarith)
      rwa [fround_sixteenth] at h
    have hn_ub : fround (pv - cp) ≤ 4096 := by
      have h := fround_mono_le (x := pv - cp) (by linarith) hub (by norm_num)
      rwa [fround_4096] at h
    have hq_lb : (1/1048576 : ℚ) ≤ fround (pv - cp) / fround (fround (1/20) * sr) := by
      rw [le_div_iff₀ hd0]
      nlinarith
    have hq_ub : fround (pv - cp) / fround (fround (1/20) * sr) ≤ 4294967296 := by
      rw [div_le_iff₀ hd0]
      nlinarith
    have hfq := fround_pos_le hq_lb hq_ub
    refine ⟨?_, Iff.intro (fun _ => hcase) (fun _ => by linarith)⟩
    intro h0
    rw [h0] at hfq
    norm_num at hfq
  · exfalso
    rw [hcase, sub_self, abs_zero] at hlb
    norm_num at hlb
  · have hdneg : pv - cp < 0 := by linarith
    rw [abs_of_neg hdneg] at hlb hub
    have hn_lb : (1/16 : ℚ) ≤ fround (cp - pv) := by
      have h := fround_mono_le (x := (1/16 : ℚ)) (y := cp - pv)
        (by norm_num) (by linarith) (by linarith)
      rwa [fround_sixteenth] at h
    have hn_ub : fround (cp - pv) ≤ 4096 := by
      have h := fround_mono_le (x := cp - pv) (y := (4096 : ℚ))
        (by linarith) (by linarith) (by norm_num)
      rwa [fround_4096] at h
    have hq_lb : (1/1048576 : ℚ) ≤ fround (cp - pv) / fround (fround (1/20) * sr) := by
      rw [le_div_iff₀ hd0]
      nlinarith
    have hq_ub : fround (cp - pv) / fround (fround (1/20) * sr) ≤ 4294967296 := by
      rw [div_le_iff₀ hd0]
      nlinarith
    have hfq := fround_pos_le hq_lb hq_ub
    have hrw : fround (fround (pv - cp) / fround (fround (1/20) * sr))
        = -fround (fround (cp - pv) / fround (fround (1/20) * sr)) := by
      rw [show pv - cp = -(cp - pv) from by ring, fround_neg, neg_div, fround_neg]
    rw [hrw]
    constructor
    · intro h0
      have : fround (fround (cp - pv) / fround (fround (1/20) * sr)) = 0 := by linarith
      rw [this] at hfq
      norm_num at hfq
    · constructor
      · intro h
        exfalso
        linarith
      · intro h
        exfalso
        linarith

/-- Claim C7 (amended): when the previous step resolved to a non-rest step
with the slide flag set, the note branch does not retrigger — the retrigger
gap and the held pitch are untouched and, unless the new step itself slides,
the gate is not re-armed — and only the slide target and rate change; the
slide rate is nonzero with the sign of (target - current) provided the pitch
gap is at least `1/16` volt in magnitude (at most `4096` volts) and the
sample rate lies in `[1, 2^20]` Hz.  (The claim's unconditional nonzero-rate
statement fails: a slide onto the pitch already held computes rate `0`.) -/
theorem slide_in_no_retrigger (st : EngineState) (step prevStepData : SequenceStep)
    (scale : ℕ) (rootNote octaveOffset : ℤ) (measuredClockPeriod sampleRate : ℚ)
    (hprev : prevStepData.isRest = false) (hslide : prevStepData.slide = true)
    (hsr1 : 1 ≤ sampleRate) (hsr2 : sampleRate ≤ 1048576) :
    (onNote st step prevStepData scale rootNote octaveOffset measuredClockPeriod
        sampleRate).retriggerGapRemaining = st.retriggerGapRemaining ∧
    (onNote st step prevStepData scale rootNote octaveOffset measuredClockPeriod
        sampleRate).currentPitch = st.currentPitch ∧
    (onNote st step prevStepData scale rootNote octaveOffset measuredClockPeriod
        sampleRate).slideTargetPitch =
      fround ((getNoteInScale step.note scale rootNote (step.octave + octaveOffset) : ℚ) / 12) ∧
    (step.slide = false →
      (onNote st step prevStepData scale rootNote octaveOffset measuredClockPeriod
          sampleRate).gateRemaining = st.gateRemaining) ∧
    (1/16 ≤ |fround ((getNoteInScale step.note scale rootNote
        (step.octave + octaveOffset) : ℚ) / 12) - st.currentPitch| →
      |fround ((getNoteInScale step.note scale rootNote
        (step.octave + octaveOffset) : ℚ) / 12) - st.currentPitch| ≤ 4096 →
      (onNote st step prevStepData scale rootNote octaveOffset measuredClockPeriod
          sampleRate).slideRate ≠ 0 ∧
      (0 < (onNote st step prevStepData scale rootNote octaveOffset measuredClockPeriod
          sampleRate).slideRate ↔
        st.currentPitch < fround ((getNoteInScale step.note scale rootNote
          (step.octave + octaveOffset) : ℚ) / 12))) := by
  have hcond : (!prevStepData.isRest && prevStepData.slide) = true := by
    rw [hprev, hslide]
    rfl
  have hon : onNote st step prevStepData scale rootNote octaveOffset measuredClockPeriod
      sampleRate =
      { st with
        slideTargetPitch := fround ((getNoteInScale step.note scale rootNote
          (step.octave + octaveOffset) : ℚ) / 12),
        slideRate := fround (fround (fround ((getNoteInScale step.note scale rootNote
          (step.octave + octaveOffset) : ℚ) / 12) - st.currentPitch) /
          fround (fround (1/20) * sampleRate)),
        gateRemaining :=
          if step.slide then
            max st.gateRemaining (fround (measuredClockPeriod * fround (11/10)))
          else st.gateRemaining,
        currentSlideActive := step.slide } := by
    simp only [onNote]
    rw [if_pos hcond]
  rw [hon]
  refine ⟨rfl, rfl, rfl, ?_, ?_⟩
  · intro hns
    show (if step.slide then
        max st.gateRemaining (fround (measuredClockPeriod * fround (11/10)))
      else st.gateRemaining) = st.gateRemaining
    rw [hns]
    rfl
  · intro hlb hub
    exact slideRate_sign hsr1 hsr2 hlb hub

/-!
Claim C9 — serialization round trip.
-/

theorem getD_map_range {α : Type} (f : ℕ → α) (d : α) (n i : ℕ) (hi : i < n) :
    ((List.range n).map f).getD i d = f i := by
  rw [List.getD_eq_getElem?_getD, List.getElem?_map, List.getElem?_range hi]
  rfl

theorem map_range_getD_eq {α : Type} (d : α) (l : List α) (n : ℕ) (hl : l.length = n) :
    (List.range n).map (fun i => l.getD i d) = l := by
  apply List.ext_getElem
  · simp [hl]
  · intro i h1 h2
    rw [List.getElem_map, List.getElem_range]
    rw [List.getD_eq_getElem?_getD, List.getElem?_eq_getElem h2]
    rfl

/-- Loading a saved fixed-capacity array that was itself produced by the
save loop restores the original contents. -/
theorem loadArray_roundtrip (cap : ℕ) (oldl l : List ℤ) (hl : l.length = cap) :
    loadArray cap oldl ((List.range cap).map (fun i => l.getD i 0)) = l := by
  unfold loadArray
  have hstep : ∀ i ∈ List.range cap,
      (if i < ((List.range cap).map (fun j => l.getD j 0)).length
        then ((List.range cap).map (fun j => l.getD j 0)).getD i 0
        else oldl.getD i 0) = l.getD i 0 := by
    intro i hi
    rw [List.mem_range] at hi
    rw [if_pos (by simpa using hi), getD_map_range _ _ _ _ hi]
  rw [List.map_congr_left hstep, map_range_getD_eq 0 l cap hl]

/-- Claim C9: saving a master pattern whose four backing arrays have their
full C++ capacities (16, 7, 64, 64) and whose probability fields are
binary32 values (as every value the program ever stores there is), then
restoring the snapshot, reproduces the pattern exactly — in particular
`getStep` answers identically at every step under all parameters. -/
theorem dataRoundTrip (seed : ℕ) (currentStep : ℤ) (mp old : MasterPattern)
    (slideActive : Bool) (curPitch targetPitch slideRate : ℚ)
    (hbar : mp.barActivationOrder.length = BAR_LEN)
    (hsc : mp.scalePriorityOrder.length = SCALE_SIZE)
    (hst : mp.steps.length = MAX_STEPS)
    (hmu : mp.muted.length = MAX_STEPS)
    (hrep : ∀ i, i < MAX_STEPS →
      fround ((mp.steps.getD i default).accentProb) = (mp.steps.getD i default).accentProb ∧
      fround ((mp.steps.getD i default).slideProb) = (mp.steps.getD i default).slideProb) :
    (dataFromJson (dataToJson seed currentStep mp slideActive curPitch targetPitch
        slideRate) old).2.2 = mp ∧
    ∀ (step : ℕ) (density spread accentsDensity slidesDensity : ℚ) (q : Bool),
      ((dataFromJson (dataToJson seed currentStep mp slideActive curPitch targetPitch
          slideRate) old).2.2).getStep step density spread accentsDensity slidesDensity q =
        mp.getStep step density spread accentsDensity slidesDensity q := by
  have hmain : (dataFromJson (dataToJson seed currentStep mp slideActive curPitch
      targetPitch slideRate) old).2.2 = mp := by
    simp only [dataFromJson, dataToJson, JSON_VERSION]
    rw [if_pos (by norm_num : (2:ℤ) ≤ 3)]
    obtain ⟨bao, spo, steps, muted⟩ := mp
    simp only [MasterPattern.mk.injEq]
    refine ⟨loadArray_roundtrip _ _ _ hbar, loadArray_roundtrip _ _ _ hsc, ?_, ?_⟩
    · have hstep : ∀ i ∈ List.range MAX_STEPS,
          (if i < ((List.range MAX_STEPS).map (fun j =>
              ({ p := ((MasterPattern.mk bao spo steps muted).steps.getD j default).notePoolIndex,
                 o := ((MasterPattern.mk bao spo steps muted).steps.getD j default).octave,
                 a := ((MasterPattern.mk bao spo steps muted).steps.getD j default).accentProb,
                 s := ((MasterPattern.mk bao spo steps muted).steps.getD j default).slideProb,
                 m := (MasterPattern.mk bao spo steps muted).muted.getD j false } : SavedStep))).length
            then
              ({ notePoolIndex := (((List.range MAX_STEPS).map (fun j =>
                    ({ p := (steps.getD j default).notePoolIndex,
                       o := (steps.getD j default).octave,
                       a := (steps.getD j default).accentProb,
                       s := (steps.getD j default).slideProb,
                       m := muted.getD j false } : SavedStep))).getD i default).p,
                 octave := (((List.range MAX_STEPS).map (fun j =>
                    ({ p := (steps.getD j default).notePoolIndex,
                       o := (steps.getD j default).octave,
                       a := (steps.getD j default).accentProb,
                       s := (steps.getD j default).slideProb,
                       m := muted.getD j false } : SavedStep))).getD i default).o,
                 accentProb := fround ((((List.range MAX_STEPS).map (fun j =>
                    ({ p := (steps.getD j default).notePoolIndex,
                       o := (steps.getD j default).octave,
                       a := (steps.getD j default).accentProb,
                       s := (steps.getD j default).slideProb,
                       m := muted.getD j false } : SavedStep))).getD i default).a),
                 slideProb := fround ((((List.range MAX_STEPS).map (fun j =>
                    ({ p := (steps.getD j default).notePoolIndex,
                       o := (steps.getD j default).octave,
                       a := (steps.getD j default).accentProb,
                       s := (steps.getD j default).slideProb,
                       m := muted.getD j false } : SavedStep))).getD i default).s) } : MasterStep)
            else old.steps.getD i default) = steps.getD i default := by
        intro i hi
        rw [List.mem_range] at hi
        rw [if_pos (by simpa using hi)]
        rw [getD_map_range _ _ _ _ hi]
        show ({ notePoolIndex := (steps.getD i default).notePoolIndex,
                octave := (steps.getD i default).octave,
                accentProb := fround ((steps.getD i default).accentProb),
                slideProb := fround ((steps.getD i default).slideProb) } : MasterStep) =
          steps.getD i default
        rw [(hrep i hi).1, (hrep i hi).2]
      rw [List.map_congr_left hstep, map_range_getD_eq default steps MAX_STEPS hst]
    · have hstep : ∀ i ∈ List.range MAX_STEPS,
          (if i < ((List.range MAX_STEPS).map (fun j =>
              ({ p := (steps.getD j default).notePoolIndex,
                 o := (steps.getD j default).octave,
                 a := (steps.getD j default).accentProb,
                 s := (steps.getD j default).slideProb,
                 m := muted.getD j false } : SavedStep))).length
            then (((List.range MAX_STEPS).map (fun j =>
              ({ p := (steps.getD j default).notePoolIndex,
                 o := (steps.getD j default).octave,
                 a := (steps.getD j default).accentProb,
                 s := (steps.getD j default).slideProb,
                 m := muted.getD j false } : SavedStep))).getD i default).m
            else old.muted.getD i false) = muted.getD i false := by
        intro i hi
        rw [List.mem_range] at hi
        rw [if_pos (by simpa using hi)]
        rw [getD_map_range _ _ _ _ hi]
      rw [List.map_congr_left hstep, map_range_getD_eq false muted MAX_STEPS hmu]
  refine ⟨hmain, ?_⟩
  intro step density spread accentsDensity slidesDensity q
  rw [hmain]

section MoreComputationalWitnesses

attribute [local semireducible] bsrStep bitlen Rat.add Rat.mul Rat.inv Rat.sub

/-- Counterexample to claim C7 as stated: a slide-in onto the pitch the
output already holds (previous step a non-rest slide, new note resolving to
the held voltage) computes a slide rate of exactly `0`, not a nonzero rate. -/
theorem slide_in_zero_rate_fails :
    ((⟨0, 0, false, true⟩ : SequenceStep).isRest = false ∧
      (⟨0, 0, false, true⟩ : SequenceStep).slide = true) ∧
    (onNote ⟨0, 0, 0, 0, 0, 0, false⟩ ⟨0, 0, false, false⟩ ⟨0, 0, false, true⟩
        0 0 0 (1/8) 48000).slideRate = 0 := by
  refine ⟨⟨rfl, rfl⟩, ?_⟩
  decide

/-- Witness for `slide_in_no_retrigger`: sliding from pitch `0 V` into the
wrapped degree 7 (pitch `1 V`) at 48 kHz leaves the retrigger gap alone and
yields a nonzero slide rate. -/
theorem slide_in_no_retrigger_witness :
    (onNote ⟨0, 0, 0, 0, 0, 0, false⟩ ⟨7, 0, false, false⟩ ⟨0, 0, false, true⟩
        0 0 0 (1/8) 48000).retriggerGapRemaining = 0 ∧
    (onNote ⟨0, 0, 0, 0, 0, 0, false⟩ ⟨7, 0, false, false⟩ ⟨0, 0, false, true⟩
        0 0 0 (1/8) 48000).slideRate ≠ 0 := by
  have h := slide_in_no_retrigger ⟨0, 0, 0, 0, 0, 0, false⟩ ⟨7, 0, false, false⟩
    ⟨0, 0, false, true⟩ 0 0 0 (1/8) 48000 rfl rfl (by norm_num) (by norm_num)
  refine ⟨h.1, (h.2.2.2.2 ?_ ?_).1⟩
  · decide
  · decide

/-- Witness for `density_monotone`: bar position 0 is active at density 50
and stays active at density 80. -/
theorem density_monotone_witness :
    MasterPattern.init.isStepActive 0 80 = true :=
  density_monotone MasterPattern.init 0 50 80 (by norm_num) (by norm_num) (by decide)

/-- Witness for `dataRoundTrip`: the default pattern survives the round
trip verbatim. -/
theorem dataRoundTrip_witness :
    (dataFromJson (dataToJson 1 0 MasterPattern.init false 0 0 0) MasterPattern.init).2.2
      = MasterPattern.init :=
  (dataRoundTrip 1 0 MasterPattern.init MasterPattern.init false 0 0 0 rfl rfl rfl rfl
    (fun i hi => by
      have hg : (MasterPattern.init.steps.getD i default) = default := by
        show ((List.replicate MAX_STEPS (default : MasterStep)).getD i default) = default
        rw [List.getD_eq_getElem?_getD, List.getElem?_replicate, if_pos hi]
        rfl
      rw [hg]
      exact ⟨fround_half, fround_half⟩)).1

end MoreComputationalWitnesses


end AcidGenerator
